import Mathlib

/-!
Verification of the tone-mapping core of the jpegxl-net repository.

The Rust sources under `src/native/jxl-ffi/src/tone_mapping/` and
`src/native/jxl-ffi/src/cms.rs` are shallowly embedded over `ℝ`:
every `f32` value is modelled as a real number (exact real arithmetic
standing in for float arithmetic), `powf`/`ln` become `Real.rpow` and
`Real.log`, and the in-place pixel loops become pure functions over
`List ℝ` of interleaved `[R, G, B, …]` samples.
-/

noncomputable section

namespace JxlTone

/-- Rust `f32::clamp`: clamp `x` to the interval `[lo, hi]`. -/
def clamp (x lo hi : ℝ) : ℝ := min (max x lo) hi

/-! ## tone_mapping/common.rs -/

/-- Precomputed BT.2446a parameters (`Bt2446aParams` in `common.rs`). -/
structure Bt2446aParams where
  rho_hdr : ℝ
  rho_sdr : ℝ
  ln_rho_hdr : ℝ

/-- `Bt2446aParams::new`: `rho = 1 + 32 * (intensity/10000)^(1/2.4)` for source
and target, and `ln_rho_hdr = ln rho_hdr`. -/
def Bt2446aParams.new (source_intensity_target desired_intensity_target : ℝ) :
    Bt2446aParams where
  rho_hdr := 1 + 32 * (source_intensity_target / 10000) ^ ((1 : ℝ) / 2.4)
  rho_sdr := 1 + 32 * (desired_intensity_target / 10000) ^ ((1 : ℝ) / 2.4)
  ln_rho_hdr := Real.log (1 + 32 * (source_intensity_target / 10000) ^ ((1 : ℝ) / 2.4))

/-- Logarithmic HDR compression step of `bt2446a_knee`. -/
def kneeLogCompress (params : Bt2446aParams) (y_prime : ℝ) : ℝ :=
  Real.log (1 + (params.rho_hdr - 1) * y_prime) / params.ln_rho_hdr

/-- Piecewise knee curve of `bt2446a_knee` (BT.2446a fixed coefficients). -/
def kneePiecewise (x : ℝ) : ℝ :=
  if x ≤ 0.7399 then 1.0770 * x
  else if x < 0.9909 then (-1.1510 * x + 2.7811) * x - 0.6302
  else 0.5 * x + 0.5

/-- Inverse logarithmic expansion step of `bt2446a_knee`. -/
def kneeExpand (params : Bt2446aParams) (x : ℝ) : ℝ :=
  (params.rho_sdr ^ x - 1) / (params.rho_sdr - 1)

/-- `bt2446a_knee` from `common.rs`: log-compress → piecewise knee → inverse-log. -/
def bt2446a_knee (params : Bt2446aParams) (y_prime : ℝ) : ℝ :=
  kneeExpand params (kneePiecewise (kneeLogCompress params y_prime))

/-! ## tone_mapping/bt2446a.rs -/

/-- Loop body of `tone_map_bt2446a` for one `[R, G, B]` pixel.
Gamma-encode each channel with exponent `1/2.4` (clamping negatives to 0),
form the luma `y'`, skip the pixel when `y' <= 0`, otherwise scale the
gamma-encoded channels by `knee(y')/y'`, clamp to `≥ 0` and gamma-decode. -/
def tone_map_bt2446a_pixel (params : Bt2446aParams) (lr lg lb r g b : ℝ) :
    ℝ × ℝ × ℝ :=
  let r' := (max r 0) ^ ((1 : ℝ) / 2.4)
  let g' := (max g 0) ^ ((1 : ℝ) / 2.4)
  let b' := (max b 0) ^ ((1 : ℝ) / 2.4)
  let y' := lr * r' + lg * g' + lb * b'
  if y' ≤ 0 then (r, g, b)
  else
    let ratio := bt2446a_knee params y' / y'
    ((max (r' * ratio) 0) ^ (2.4 : ℝ),
     (max (g' * ratio) 0) ^ (2.4 : ℝ),
     (max (b' * ratio) 0) ^ (2.4 : ℝ))

/-- Interleaved-buffer loop shared by all four kernels: the Rust loops run
`for i in 0..data.len() / 3` and rewrite `data[3i..3i+3]` with the pixel
function, so a trailing partial triple is left as it is. -/
def mapTriples (f : ℝ → ℝ → ℝ → ℝ × ℝ × ℝ) : List ℝ → List ℝ
  | r :: g :: b :: rest =>
      (f r g b).1 :: (f r g b).2.1 :: (f r g b).2.2 :: mapTriples f rest
  | rest => rest

/-- `tone_map_bt2446a` on an interleaved `[R, G, B, …]` buffer. -/
def tone_map_bt2446a (params : Bt2446aParams) (lr lg lb : ℝ) (data : List ℝ) :
    List ℝ :=
  mapTriples (tone_map_bt2446a_pixel params lr lg lb) data

/-- The full Y'CbCr decompose → scale chroma → reconstruct reference path for
one pixel, following the spec's §4.3 description of the BT.2446a
decomposition, as written out in the repository's test
`bt2446a_matches_ycbcr_roundtrip` (`tone_mapping/test.rs`): form `Cb`/`Cr`
from the gamma-encoded channels, scale them by the same knee ratio, and
reconstruct the gamma-encoded channels from `(Y'_mapped, Cb_out, Cr_out)`. -/
def bt2446a_ycbcr_roundtrip_pixel (params : Bt2446aParams) (lr lg lb r g b : ℝ) :
    ℝ × ℝ × ℝ :=
  let r' := (max r 0) ^ ((1 : ℝ) / 2.4)
  let g' := (max g 0) ^ ((1 : ℝ) / 2.4)
  let b' := (max b 0) ^ ((1 : ℝ) / 2.4)
  let y' := lr * r' + lg * g' + lb * b'
  let y_m := bt2446a_knee params y'
  let ratio := y_m / y'
  let cb := (b' - y') / (2 * (1 - lb))
  let cr := (r' - y') / (2 * (1 - lr))
  let cb_out := cb * ratio
  let cr_out := cr * ratio
  ((max (y_m + 2 * (1 - lr) * cr_out) 0) ^ (2.4 : ℝ),
   (max (y_m - 2 * (1 - lb) * (lb / lg) * cb_out - 2 * (1 - lr) * (lr / lg) * cr_out) 0)
     ^ (2.4 : ℝ),
   (max (y_m + 2 * (1 - lb) * cb_out) 0) ^ (2.4 : ℝ))

/-! ## tone_mapping/bt2446a_linear.rs -/

/-- `bt2446a_map`: gamma-encode a linear luminance, apply the knee, gamma-decode. -/
def bt2446a_map (params : Bt2446aParams) (y : ℝ) : ℝ :=
  (bt2446a_knee params (y ^ ((1 : ℝ) / 2.4))) ^ (2.4 : ℝ)

/-- Loop body of `tone_map_bt2446a_linear` for one pixel: linear luminance,
skip when `y_lin <= 0`, otherwise scale all three channels by
`bt2446a_map(y_lin) / y_lin`. -/
def tone_map_bt2446a_linear_pixel (params : Bt2446aParams) (lr lg lb r g b : ℝ) :
    ℝ × ℝ × ℝ :=
  let y_lin := lr * r + lg * g + lb * b
  if y_lin ≤ 0 then (r, g, b)
  else
    let ratio := bt2446a_map params y_lin / y_lin
    (r * ratio, g * ratio, b * ratio)

/-- `tone_map_bt2446a_linear` on an interleaved buffer. -/
def tone_map_bt2446a_linear (params : Bt2446aParams) (lr lg lb : ℝ)
    (data : List ℝ) : List ℝ :=
  mapTriples (tone_map_bt2446a_linear_pixel params lr lg lb) data

/-! ## PQ transfer function (SMPTE ST 2084)

The kernels call `jxl::color::tf::{linear_to_pq, pq_to_linear}` (and their
`_precise` variants) from the external `jxl` crate, whose sources are not
part of this repository. -/

/-- PQ constant `m1 = 2610 / 16384`. -/
def pqM1 : ℝ := 2610 / 16384

/-- PQ constant `m2 = (2523 / 4096) * 128`. -/
def pqM2 : ℝ := 2523 / 32

/-- PQ constant `c1 = 3424 / 4096`. -/
def pqC1 : ℝ := 3424 / 4096

/-- PQ constant `c2 = (2413 / 4096) * 32`. -/
def pqC2 : ℝ := 2413 / 128

/-- PQ constant `c3 = (2392 / 4096) * 32`. -/
def pqC3 : ℝ := 2392 / 128

/-- Modelled from the spec: `jxl::color::tf::linear_to_pq` (and
`linear_to_pq_precise`), the SMPTE ST 2084 Perceptual Quantizer inverse EOTF,
is not part of this repository's sources.  Per the spec glossary it maps
absolute luminance (nits) to a perceptually-uniform `[0,1]` code value; the
first argument scales a linear sample (`1.0 = display_intensity_target` nits)
to absolute luminance. -/
def linear_to_pq (display_intensity_target x : ℝ) : ℝ :=
  ((pqC1 + pqC2 * (x * display_intensity_target / 10000) ^ pqM1) /
    (1 + pqC3 * (x * display_intensity_target / 10000) ^ pqM1)) ^ pqM2

/-- Modelled from the spec: `jxl::color::tf::pq_to_linear` (and
`pq_to_linear_precise`), the SMPTE ST 2084 PQ EOTF (the inverse of
`linear_to_pq`), is not part of this repository's sources. On the spec's
`[0, 1]` code domain it is the ST 2084 formula; for codes outside that
domain, `rec2408.rs` documents `pq_decode_nits` as "equivalent to libjxl's
`TF_PQ_Base::DisplayFromEncoded`", whose transfer functions extend to
negative codes sign-symmetrically (decode the magnitude, copy the input's
sign back), and the model follows that documented semantics. -/
def pq_to_linear (display_intensity_target v : ℝ) : ℝ :=
  if v < 0 then
    -((max ((-v) ^ (1 / pqM2) - pqC1) 0 /
        (pqC2 - pqC3 * (-v) ^ (1 / pqM2))) ^ (1 / pqM1) *
      (10000 / display_intensity_target))
  else
    (max (v ^ (1 / pqM2) - pqC1) 0 / (pqC2 - pqC3 * v ^ (1 / pqM2))) ^ (1 / pqM1) *
      (10000 / display_intensity_target)

/-- Proof-layer abbreviation: the rational core of the PQ inverse EOTF,
`(c1 + c2·z) / (1 + c3·z)` applied to `z = y^m1`. -/
def pqRatio (z : ℝ) : ℝ := (pqC1 + pqC2 * z) / (1 + pqC3 * z)

/-! ## tone_mapping/rec2408.rs -/

/-- `pq_encode_nits`: PQ inverse EOTF on absolute nits, from `rec2408.rs`. -/
def pq_encode_nits (luminance_nits : ℝ) : ℝ :=
  linear_to_pq 10000 (luminance_nits / 10000)

/-- `pq_decode_nits`: PQ EOTF to absolute nits, from `rec2408.rs`. -/
def pq_decode_nits (encoded : ℝ) : ℝ :=
  pq_to_linear 10000 encoded * 10000

/-- `PRESERVE_SATURATION`: libjxl's default for the render pipeline path. -/
def PRESERVE_SATURATION : ℝ := 0.1

/-- Precomputed Rec. 2408 / BT.2390 parameters (`Rec2408Params`). -/
structure Rec2408Params where
  pq_mastering_min : ℝ
  pq_mastering_range : ℝ
  inv_pq_mastering_range : ℝ
  min_lum : ℝ
  max_lum : ℝ
  ks : ℝ
  inv_one_minus_ks : ℝ
  source_peak : ℝ
  normalizer : ℝ
  inv_target_peak : ℝ
  target_peak : ℝ

/-- `Rec2408Params::new` from `[min, max]` nits ranges for source and target. -/
def Rec2408Params.new (source_range target_range : ℝ × ℝ) : Rec2408Params :=
  let pq_mastering_min := pq_encode_nits source_range.1
  let pq_mastering_max := pq_encode_nits source_range.2
  let pq_mastering_range := pq_mastering_max - pq_mastering_min
  let inv_pq_mastering_range := 1 / pq_mastering_range
  let min_lum := (pq_encode_nits target_range.1 - pq_mastering_min) * inv_pq_mastering_range
  let max_lum := (pq_encode_nits target_range.2 - pq_mastering_min) * inv_pq_mastering_range
  let ks := 1.5 * max_lum - 0.5
  { pq_mastering_min := pq_mastering_min
    pq_mastering_range := pq_mastering_range
    inv_pq_mastering_range := inv_pq_mastering_range
    min_lum := min_lum
    max_lum := max_lum
    ks := ks
    inv_one_minus_ks := 1 / max (1 - ks) 1e-6
    source_peak := source_range.2
    normalizer := source_range.2 / target_range.2
    inv_target_peak := 1 / target_range.2
    target_peak := target_range.2 }

/-- `Rec2408Params::hermite_spline`: cubic Hermite spline knee (BT.2390). -/
def Rec2408Params.hermite_spline (p : Rec2408Params) (b : ℝ) : ℝ :=
  let t := (b - p.ks) * p.inv_one_minus_ks
  let t2 := t * t
  let t3 := t2 * t
  (2 * t3 - 3 * t2 + 1) * p.ks + (t3 - 2 * t2 + t) * (1 - p.ks) +
    (-2 * t3 + 3 * t2) * p.max_lum

/-- The guarded reciprocal in `gamut_map`: `1.0` when `val_minus_gray` is
exactly zero, `1 / val_minus_gray` otherwise. -/
def invValMinusGray (val_minus_gray : ℝ) : ℝ :=
  if val_minus_gray = 0 then 1 else 1 / val_minus_gray

/-- One iteration of the `for &val in &[*r, *g, *b]` loop in `gamut_map`,
threading the `(gray_mix_saturation, gray_mix_luminance)` accumulator. -/
def gamutStep (luminance val : ℝ) (acc : ℝ × ℝ) : ℝ × ℝ :=
  let val_minus_gray := val - luminance
  let inv_val_minus_gray := invValMinusGray val_minus_gray
  let val_over_val_minus_gray := val * inv_val_minus_gray
  let gms := if val_minus_gray < 0 then max acc.1 val_over_val_minus_gray else acc.1
  let gml := max acc.2
    (if val_minus_gray ≤ 0 then gms else val_over_val_minus_gray - inv_val_minus_gray)
  (gms, gml)

/-- `gamut_map`: desaturate out-of-gamut pixels while preserving luminance,
with `preserve_saturation = 0.1` and a final uniform rescale when any
channel still exceeds `1.0`. -/
def gamut_map (r g b lr lg lb : ℝ) : ℝ × ℝ × ℝ :=
  let luminance := lr * r + lg * g + lb * b
  let acc := gamutStep luminance b (gamutStep luminance g (gamutStep luminance r (0, 0)))
  let gray_mix := clamp (PRESERVE_SATURATION * (acc.1 - acc.2) + acc.2) 0 1
  let r1 := gray_mix * (luminance - r) + r
  let g1 := gray_mix * (luminance - g) + g
  let b1 := gray_mix * (luminance - b) + b
  let max_clr := max (max (max r1 g1) b1) 1
  let normalizer := 1 / max_clr
  (r1 * normalizer, g1 * normalizer, b1 * normalizer)

/-- Loop body of `tone_map_rec2408` for one pixel (`MIN_LUMINANCE = 1e-6`). -/
def tone_map_rec2408_pixel (params : Rec2408Params) (lr lg lb r g b : ℝ) :
    ℝ × ℝ × ℝ :=
  let luminance := params.source_peak * (lr * r + lg * g + lb * b)
  let normalized_pq :=
    min ((pq_encode_nits luminance - params.pq_mastering_min) *
      params.inv_pq_mastering_range) 1
  let e2 := if normalized_pq < params.ks then normalized_pq
            else params.hermite_spline normalized_pq
  let one_minus_e2 := 1 - e2
  let one_minus_e2_2 := one_minus_e2 * one_minus_e2
  let e3 := params.min_lum * (one_minus_e2_2 * one_minus_e2_2) + e2
  let e4 := e3 * params.pq_mastering_range + params.pq_mastering_min
  let new_luminance := clamp (pq_decode_nits e4) 0 params.target_peak
  let scaled :=
    if luminance ≤ 1e-6 then
      let cap := new_luminance * params.inv_target_peak
      (cap, cap, cap)
    else
      let multiplier := new_luminance / luminance * params.normalizer
      (r * multiplier, g * multiplier, b * multiplier)
  gamut_map scaled.1 scaled.2.1 scaled.2.2 lr lg lb

/-- `tone_map_rec2408` on an interleaved buffer. -/
def tone_map_rec2408 (params : Rec2408Params) (lr lg lb : ℝ) (data : List ℝ) :
    List ℝ :=
  mapTriples (tone_map_rec2408_pixel params lr lg lb) data

/-! ## tone_mapping/bt2446a_perceptual.rs -/

/-- Row-major 3×3 real matrix (`[[f32; 3]; 3]`). -/
structure M3 where
  m00 : ℝ
  m01 : ℝ
  m02 : ℝ
  m10 : ℝ
  m11 : ℝ
  m12 : ℝ
  m20 : ℝ
  m21 : ℝ
  m22 : ℝ

/-- `mat_mul`: 3×3 matrix × vector multiply. -/
def mat_mul (m : M3) (v : ℝ × ℝ × ℝ) : ℝ × ℝ × ℝ :=
  (m.m00 * v.1 + m.m01 * v.2.1 + m.m02 * v.2.2,
   m.m10 * v.1 + m.m11 * v.2.1 + m.m12 * v.2.2,
   m.m20 * v.1 + m.m21 * v.2.1 + m.m22 * v.2.2)

/-- `RGB_TO_LMS`: RGB(BT.2020) → LMS matrix for IPTPQc4. -/
def RGB_TO_LMS : M3 :=
  ⟨0.412109, 0.523925, 0.063965,
   0.166748, 0.720459, 0.112793,
   0.024170, 0.075440, 0.900390⟩

/-- `LMS_PQ_TO_IPT`: LMS_PQ → IPT matrix for IPTPQc4. -/
def LMS_PQ_TO_IPT : M3 :=
  ⟨2048 / 4096, 2048 / 4096, 0 / 4096,
   6610 / 4096, -13613 / 4096, 7003 / 4096,
   17933 / 4096, -17390 / 4096, -543 / 4096⟩

/-- `inv_3x3`: 3×3 matrix inverse by Cramer's rule (a `const fn` in the source). -/
def inv_3x3 (m : M3) : M3 :=
  let a := m.m00
  let b := m.m01
  let c := m.m02
  let d := m.m10
  let e := m.m11
  let f := m.m12
  let g := m.m20
  let h := m.m21
  let k := m.m22
  let det := a * (e * k - f * h) - b * (d * k - f * g) + c * (d * h - e * g)
  let inv_det := 1 / det
  ⟨(e * k - f * h) * inv_det, (c * h - b * k) * inv_det, (b * f - c * e) * inv_det,
   (f * g - d * k) * inv_det, (a * k - c * g) * inv_det, (c * d - a * f) * inv_det,
   (d * h - e * g) * inv_det, (b * g - a * h) * inv_det, (a * e - b * d) * inv_det⟩

/-- `IPT_TO_LMS_PQ = inv_3x3(LMS_PQ_TO_IPT)`. -/
def IPT_TO_LMS_PQ : M3 := inv_3x3 LMS_PQ_TO_IPT

/-- `LMS_TO_RGB = inv_3x3(RGB_TO_LMS)`. -/
def LMS_TO_RGB : M3 := inv_3x3 RGB_TO_LMS

/-- Loop body of `tone_map_bt2446a_perceptual` for one pixel:
RGB → LMS → PQ → IPT, knee on the I channel, scale P and T by the same
ratio, convert back; skip when `I <= 0`. -/
def tone_map_bt2446a_perceptual_pixel (params : Bt2446aParams) (source_it : ℝ)
    (r g b : ℝ) : ℝ × ℝ × ℝ :=
  let lms := mat_mul RGB_TO_LMS (max r 0, max g 0, max b 0)
  let lms_pq := (linear_to_pq source_it lms.1,
                 linear_to_pq source_it lms.2.1,
                 linear_to_pq source_it lms.2.2)
  let ipt := mat_mul LMS_PQ_TO_IPT lms_pq
  if ipt.1 ≤ 0 then (r, g, b)
  else
    let i_mapped := bt2446a_knee params ipt.1
    let ratio := i_mapped / ipt.1
    let ipt_mapped := (i_mapped, ipt.2.1 * ratio, ipt.2.2 * ratio)
    let lms_pq_out := mat_mul IPT_TO_LMS_PQ ipt_mapped
    let lms_out := (pq_to_linear source_it lms_pq_out.1,
                    pq_to_linear source_it lms_pq_out.2.1,
                    pq_to_linear source_it lms_pq_out.2.2)
    mat_mul LMS_TO_RGB lms_out

/-- `tone_map_bt2446a_perceptual` on an interleaved buffer. -/
def tone_map_bt2446a_perceptual (params : Bt2446aParams) (source_it : ℝ)
    (data : List ℝ) : List ℝ :=
  mapTriples (tone_map_bt2446a_perceptual_pixel params source_it) data

/-! ## cms.rs: luminance coefficients and the tone-mapping CMS front-end -/

/-- Determinant of the 3×3 chromaticity system in
`luminances_from_chromaticities` (the `det` local). -/
def lumDet (rx ry gx gy bx b_y : ℝ) : ℝ :=
  let rz := 1 - rx - ry
  let gz := 1 - gx - gy
  let bz := 1 - bx - b_y
  let m00 := rx / ry
  let m01 := gx / gy
  let m02 := bx / b_y
  let m10 := (1 : ℝ)
  let m11 := (1 : ℝ)
  let m12 := (1 : ℝ)
  let m20 := rz / ry
  let m21 := gz / gy
  let m22 := bz / b_y
  m00 * (m11 * m22 - m12 * m21) - m01 * (m10 * m22 - m12 * m20) +
    m02 * (m10 * m21 - m11 * m20)

/-- Cramer's-rule scale factors `(sr, sg, sb)` of
`luminances_from_chromaticities`, before normalization. -/
def lumScale (rx ry gx gy bx b_y wx wy : ℝ) : ℝ × ℝ × ℝ :=
  let rz := 1 - rx - ry
  let gz := 1 - gx - gy
  let bz := 1 - bx - b_y
  let w_x := wx / wy
  let w_y := (1 : ℝ)
  let w_z := (1 - wx - wy) / wy
  let m00 := rx / ry
  let m01 := gx / gy
  let m02 := bx / b_y
  let m10 := (1 : ℝ)
  let m11 := (1 : ℝ)
  let m12 := (1 : ℝ)
  let m20 := rz / ry
  let m21 := gz / gy
  let m22 := bz / b_y
  let inv_det := 1 / lumDet rx ry gx gy bx b_y
  ((w_x * (m11 * m22 - m12 * m21) - m01 * (w_y * m22 - m12 * w_z) +
      m02 * (w_y * m21 - m11 * w_z)) * inv_det,
   (m00 * (w_y * m22 - m12 * w_z) - w_x * (m10 * m22 - m12 * m20) +
      m02 * (m10 * w_z - w_y * m20)) * inv_det,
   (m00 * (m11 * w_z - w_y * m21) - m01 * (m10 * w_z - w_y * m20) +
      w_x * (m10 * m21 - m11 * m20)) * inv_det)

/-- `luminances_from_chromaticities` from `cms.rs` (the Rust argument `by` is
written `b_y` because `by` is a Lean keyword): solve the 3×3 chromaticity
system by Cramer's rule, normalize so the weights sum to 1, and fall back to
the fixed BT.2020 triple on a numerically degenerate determinant or sum. -/
def luminances_from_chromaticities (rx ry gx gy bx b_y wx wy : ℝ) : ℝ × ℝ × ℝ :=
  if |lumDet rx ry gx gy bx b_y| < 1e-10 then (0.2627, 0.6780, 0.0593)
  else
    let s := lumScale rx ry gx gy bx b_y wx wy
    let sum := s.1 + s.2.1 + s.2.2
    if |sum| < 1e-10 then (0.2627, 0.6780, 0.0593)
    else (s.1 / sum, s.2.1 / sum, s.2.2 / sum)

/-- The denominators `luminances_from_chromaticities` divides by, in source
order: the chromaticity ratios divide by `wy` (`w_x`, `w_z`), `ry` (`m00`,
`m20`), `gy` (`m01`, `m21`) and `by` (`m02`, `m22`) unconditionally; `det` is
divided by (as `inv_det`) only after the `|det| < 1e-10` guard, and `sum`
only after the `|sum| < 1e-10` guard. -/
def luminance_divisors (rx ry gx gy bx b_y wx wy : ℝ) : List ℝ :=
  [wy, ry, gy, b_y] ++
    (if |lumDet rx ry gx gy bx b_y| < 1e-10 then []
     else
       let s := lumScale rx ry gx gy bx b_y wx wy
       let sum := s.1 + s.2.1 + s.2.2
       [lumDet rx ry gx gy bx b_y] ++ (if |sum| < 1e-10 then [] else [sum]))

/-- `ToneMapMethod` from `tone_mapping/mod.rs`. -/
inductive ToneMapMethod where
  | Bt2446a
  | Bt2446aLinear
  | Bt2446aPerceptual
  | Rec2408
  | CmsOnly
deriving DecidableEq

/-- `DEFAULT_SDR_INTENSITY_TARGET`: standard SDR reference white (nits). -/
def DEFAULT_SDR_INTENSITY_TARGET : ℝ := 203

/-- `ToneMapMethod::default_intensity_target` from `tone_mapping/mod.rs`. -/
def ToneMapMethod.default_intensity_target : ToneMapMethod → ℝ
  | .Rec2408 => 255
  | .Bt2446a => DEFAULT_SDR_INTENSITY_TARGET
  | .Bt2446aLinear => DEFAULT_SDR_INTENSITY_TARGET
  | .Bt2446aPerceptual => DEFAULT_SDR_INTENSITY_TARGET
  | .CmsOnly => DEFAULT_SDR_INTENSITY_TARGET

/-- `ToneMapConfig` from `cms.rs`: per-method precomputed configuration. -/
inductive ToneMapConfig where
  | Bt2446a (params : Bt2446aParams) (luminances : ℝ × ℝ × ℝ)
  | Bt2446aLinear (params : Bt2446aParams) (luminances : ℝ × ℝ × ℝ)
  | Bt2446aPerceptual (params : Bt2446aParams) (source_intensity_target : ℝ)
  | Rec2408 (params : Rec2408Params) (luminances : ℝ × ℝ × ℝ)

/-- The tone-map configuration decision of
`ToneMappingLcms2Cms::initialize_transforms` in `cms.rs`: a config is built
only when `intensity_target > desired_intensity_target` and
`desired_intensity_target > 0`; otherwise tone mapping is skipped (`None`).
The `CmsOnly` arm is `unreachable!` in the source (`CmsOnly` uses the plain
lcms2 CMS and never constructs `ToneMappingLcms2Cms`), modelled as `none`. -/
def toneMapConfigOf (method : ToneMapMethod) (desired_intensity_target : ℝ)
    (intensity_target : ℝ) (luminances : ℝ × ℝ × ℝ) : Option ToneMapConfig :=
  if intensity_target > desired_intensity_target ∧ desired_intensity_target > 0 then
    match method with
    | .Bt2446a =>
        some (.Bt2446a (Bt2446aParams.new intensity_target desired_intensity_target)
          luminances)
    | .Bt2446aLinear =>
        some (.Bt2446aLinear (Bt2446aParams.new intensity_target desired_intensity_target)
          luminances)
    | .Bt2446aPerceptual =>
        some (.Bt2446aPerceptual (Bt2446aParams.new intensity_target desired_intensity_target)
          intensity_target)
    | .Rec2408 =>
        some (.Rec2408 (Rec2408Params.new (0, intensity_target)
          (0, desired_intensity_target)) luminances)
    | .CmsOnly => none
  else none

/-! ## Generic facts about the interleaved loop -/

theorem mapTriples_length (f : ℝ → ℝ → ℝ → ℝ × ℝ × ℝ) (data : List ℝ) :
    (mapTriples f data).length = data.length := by
  induction data using mapTriples.induct f with
  | case1 r g b rest ih => simp [mapTriples]; omega
  | case2 rest h => simp [mapTriples]

theorem mapTriples_drop_rest (f : ℝ → ℝ → ℝ → ℝ × ℝ × ℝ) (data : List ℝ) :
    (mapTriples f data).drop (3 * (data.length / 3)) =
      data.drop (3 * (data.length / 3)) := by
  induction data using mapTriples.induct f with
  | case1 r g b rest ih =>
      have hlen : (r :: g :: b :: rest).length = rest.length + 3 := by
        simp [List.length_cons]
      have hdiv : (rest.length + 3) / 3 = rest.length / 3 + 1 := by omega
      have hmul : 3 * (rest.length / 3 + 1) = 3 * (rest.length / 3) + 3 := by ring
      simp only [mapTriples, hlen, hdiv, hmul, List.drop_succ_cons]
      exact ih
  | case2 rest h =>
      simp [mapTriples]

/-! ## Properties of the BT.2446a knee curve -/

theorem kneeLogCompress_nonneg (p : Bt2446aParams) (hh : 1 < p.rho_hdr)
    (hln : p.ln_rho_hdr = Real.log p.rho_hdr) {y : ℝ} (hy : 0 ≤ y) :
    0 ≤ kneeLogCompress p y := by
  rw [kneeLogCompress, hln]
  refine div_nonneg (Real.log_nonneg (by nlinarith)) (Real.log_pos hh).le

theorem kneeLogCompress_pos (p : Bt2446aParams) (hh : 1 < p.rho_hdr)
    (hln : p.ln_rho_hdr = Real.log p.rho_hdr) {y : ℝ} (hy : 0 < y) :
    0 < kneeLogCompress p y := by
  rw [kneeLogCompress, hln]
  refine div_pos (Real.log_pos (by nlinarith)) (Real.log_pos hh)

theorem kneeLogCompress_lt (p : Bt2446aParams) (hh : 1 < p.rho_hdr)
    (hln : p.ln_rho_hdr = Real.log p.rho_hdr) {y1 y2 : ℝ} (h0 : 0 ≤ y1)
    (h : y1 < y2) : kneeLogCompress p y1 < kneeLogCompress p y2 := by
  rw [kneeLogCompress, kneeLogCompress, hln]
  rw [div_lt_div_iff_of_pos_right (Real.log_pos hh)]
  refine Real.log_lt_log (by nlinarith) (by nlinarith)

theorem kneeLogCompress_le_one (p : Bt2446aParams) (hh : 1 < p.rho_hdr)
    (hln : p.ln_rho_hdr = Real.log p.rho_hdr) {y : ℝ} (hy0 : 0 ≤ y) (hy : y ≤ 1) :
    kneeLogCompress p y ≤ 1 := by
  rw [kneeLogCompress, hln]
  rw [div_le_one (Real.log_pos hh)]
  refine Real.log_le_log (by nlinarith) (by nlinarith)

theorem kneeLogCompress_le (p : Bt2446aParams) (hh : 1 < p.rho_hdr)
    (hln : p.ln_rho_hdr = Real.log p.rho_hdr) {y c : ℝ}
    (hc : p.rho_hdr - 1 ≤ c * Real.log p.rho_hdr) (hy : 0 ≤ y) :
    kneeLogCompress p y ≤ c * y := by
  rw [kneeLogCompress, hln]
  rw [div_le_iff₀ (Real.log_pos hh)]
  have hlog : Real.log (1 + (p.rho_hdr - 1) * y) ≤ (p.rho_hdr - 1) * y := by
    have h1 : 0 < 1 + (p.rho_hdr - 1) * y := by nlinarith
    have := Real.log_le_sub_one_of_pos h1
    linarith
  have hc2 : (p.rho_hdr - 1) * y ≤ c * Real.log p.rho_hdr * y := by
    exact mul_le_mul_of_nonneg_right hc hy
  calc Real.log (1 + (p.rho_hdr - 1) * y) ≤ (p.rho_hdr - 1) * y := hlog
    _ ≤ c * Real.log p.rho_hdr * y := hc2
    _ = c * y * Real.log p.rho_hdr := by ring

theorem kneePiecewise_strictMono : StrictMono kneePiecewise := by
  intro x1 x2 h
  rw [kneePiecewise, kneePiecewise]
  rcases le_or_lt x1 0.7399 with h1 | h1
  · rw [if_pos h1]
    rcases le_or_lt x2 0.7399 with h2 | h2
    · rw [if_pos h2]; linarith
    · rw [if_neg (not_le.2 h2)]
      rcases lt_or_le x2 0.9909 with h3 | h3
      · rw [if_pos h3]
        nlinarith [mul_pos (by linarith : (0:ℝ) < x2 - 0.7399)
          (by linarith : (0:ℝ) < 0.9909 - x2)]
      · rw [if_neg (not_lt.2 h3)]; nlinarith
  · rw [if_neg (not_le.2 h1), if_neg (not_le.2 (h1.trans h))]
    rcases lt_or_le x1 0.9909 with h3 | h3
    · rw [if_pos h3]
      rcases lt_or_le x2 0.9909 with h4 | h4
      · rw [if_pos h4]
        nlinarith [mul_pos (by linarith : (0:ℝ) < x2 - x1)
          (by linarith : (0:ℝ) < 2.7811 - 1.1510 * (x1 + x2))]
      · rw [if_neg (not_lt.2 h4)]
        nlinarith [mul_pos (by linarith : (0:ℝ) < 0.9909 - x1)
          (by linarith : (0:ℝ) < 2.7811 - 1.1510 * (x1 + 0.9909))]
    · rw [if_neg (not_lt.2 h3), if_neg (not_lt.2 (h3.trans h.le))]
      linarith

theorem kneePiecewise_pos {x : ℝ} (hx : 0 < x) : 0 < kneePiecewise x := by
  have := kneePiecewise_strictMono hx
  rw [show kneePiecewise 0 = 0 by rw [kneePiecewise]; norm_num] at this
  exact this

theorem kneePiecewise_nonneg {x : ℝ} (hx : 0 ≤ x) : 0 ≤ kneePiecewise x := by
  rcases hx.lt_or_eq with h | h
  · exact (kneePiecewise_pos h).le
  · rw [← h, kneePiecewise]; norm_num

theorem kneePiecewise_le_one {x : ℝ} (hx : x ≤ 1) : kneePiecewise x ≤ 1 := by
  have := kneePiecewise_strictMono.monotone hx
  rw [show kneePiecewise 1 = 1 by rw [kneePiecewise]; norm_num] at this
  exact this

theorem kneePiecewise_eq_low {x : ℝ} (hx : x ≤ 0.7399) :
    kneePiecewise x = 1.0770 * x := by
  rw [kneePiecewise, if_pos hx]

theorem kneeExpand_lt (p : Bt2446aParams) (hs : 1 < p.rho_sdr) {x1 x2 : ℝ}
    (h : x1 < x2) : kneeExpand p x1 < kneeExpand p x2 := by
  rw [kneeExpand, kneeExpand]
  rw [div_lt_div_iff_of_pos_right (by linarith : (0:ℝ) < p.rho_sdr - 1)]
  have := (Real.rpow_lt_rpow_left_iff hs).2 h
  linarith

theorem kneeExpand_pos (p : Bt2446aParams) (hs : 1 < p.rho_sdr) {x : ℝ}
    (hx : 0 < x) : 0 < kneeExpand p x := by
  have := kneeExpand_lt p hs hx
  rw [show kneeExpand p 0 = 0 by rw [kneeExpand, Real.rpow_zero]; ring] at this
  exact this

theorem kneeExpand_nonneg (p : Bt2446aParams) (hs : 1 < p.rho_sdr) {x : ℝ}
    (hx : 0 ≤ x) : 0 ≤ kneeExpand p x := by
  rcases hx.lt_or_eq with h | h
  · exact (kneeExpand_pos p hs h).le
  · rw [← h, kneeExpand, Real.rpow_zero]; simp

theorem kneeExpand_le_one (p : Bt2446aParams) (hs : 1 < p.rho_sdr) {x : ℝ}
    (hx : x ≤ 1) : kneeExpand p x ≤ 1 := by
  rw [kneeExpand, div_le_one (by linarith)]
  have h1 : p.rho_sdr ^ x ≤ p.rho_sdr ^ (1:ℝ) :=
    (Real.rpow_le_rpow_left_iff hs).2 hx
  rw [Real.rpow_one] at h1
  linarith

theorem kneeExpand_le_self (p : Bt2446aParams) (hs : 1 < p.rho_sdr) {x : ℝ}
    (hx0 : 0 ≤ x) (hx1 : x ≤ 1) : kneeExpand p x ≤ x := by
  rw [kneeExpand, div_le_iff₀ (by linarith)]
  have hpos : (0:ℝ) < p.rho_sdr := by linarith
  have hconv := convexOn_exp.2 (Set.mem_univ (0:ℝ))
    (Set.mem_univ (Real.log p.rho_sdr)) (by linarith : (0:ℝ) ≤ 1 - x) hx0
    (by ring : (1 - x) + x = 1)
  simp only [smul_eq_mul, mul_zero, zero_add, Real.exp_zero] at hconv
  rw [Real.exp_log hpos] at hconv
  have hx2 : p.rho_sdr ^ x = Real.exp (x * Real.log p.rho_sdr) := by
    rw [Real.rpow_def_of_pos hpos]; ring_nf
  rw [hx2]
  nlinarith [hconv]

theorem bt2446a_knee_pos (p : Bt2446aParams) (hh : 1 < p.rho_hdr)
    (hln : p.ln_rho_hdr = Real.log p.rho_hdr) (hs : 1 < p.rho_sdr) {y : ℝ}
    (hy : 0 < y) : 0 < bt2446a_knee p y :=
  kneeExpand_pos p hs (kneePiecewise_pos (kneeLogCompress_pos p hh hln hy))

theorem bt2446a_knee_lt (p : Bt2446aParams) (hh : 1 < p.rho_hdr)
    (hln : p.ln_rho_hdr = Real.log p.rho_hdr) (hs : 1 < p.rho_sdr) {y1 y2 : ℝ}
    (h0 : 0 ≤ y1) (h : y1 < y2) : bt2446a_knee p y1 < bt2446a_knee p y2 :=
  kneeExpand_lt p hs (kneePiecewise_strictMono (kneeLogCompress_lt p hh hln h0 h))

theorem bt2446a_knee_le_one (p : Bt2446aParams) (hh : 1 < p.rho_hdr)
    (hln : p.ln_rho_hdr = Real.log p.rho_hdr) (hs : 1 < p.rho_sdr) {y : ℝ}
    (hy0 : 0 ≤ y) (hy : y ≤ 1) : bt2446a_knee p y ≤ 1 :=
  kneeExpand_le_one p hs (kneePiecewise_le_one (kneeLogCompress_le_one p hh hln hy0 hy))

/-- Validity of `Bt2446aParams::new` for positive intensities with the source
within the 10000-nit PQ range: `1 < rho_hdr ≤ 33`, `1 < rho_sdr`, and the
precomputed logarithm field is `log rho_hdr`. -/
theorem Bt2446aParams_new_valid {s d : ℝ} (hs0 : 0 < s) (hs1 : s ≤ 10000)
    (hd : 0 < d) :
    1 < (Bt2446aParams.new s d).rho_hdr ∧
    (Bt2446aParams.new s d).ln_rho_hdr = Real.log (Bt2446aParams.new s d).rho_hdr ∧
    1 < (Bt2446aParams.new s d).rho_sdr ∧
    (Bt2446aParams.new s d).rho_hdr ≤ 33 := by
  have hb : (0:ℝ) < s / 10000 := by positivity
  have hrp := Real.rpow_pos_of_pos hb ((1:ℝ)/2.4)
  have hrp1 : (s / 10000) ^ ((1:ℝ)/2.4) ≤ 1 :=
    Real.rpow_le_one hb.le (by linarith [div_le_one_of_le₀ hs1 (by norm_num : (0:ℝ) ≤ 10000)])
      (by norm_num)
  have hdp := Real.rpow_pos_of_pos (show (0:ℝ) < d / 10000 by positivity) ((1:ℝ)/2.4)
  refine ⟨by simp only [Bt2446aParams.new]; nlinarith, rfl,
    by simp only [Bt2446aParams.new]; nlinarith,
    by simp only [Bt2446aParams.new]; nlinarith⟩

/-! ## Properties of the PQ transfer function -/

theorem linear_to_pq_eq (t x : ℝ) :
    linear_to_pq t x = pqRatio ((x * t / 10000) ^ pqM1) ^ pqM2 := rfl

theorem pq_encode_nits_eq (n : ℝ) :
    pq_encode_nits n = pqRatio ((n / 10000) ^ pqM1) ^ pqM2 := by
  rw [pq_encode_nits, linear_to_pq_eq]
  norm_num

theorem pqRatio_pos {z : ℝ} (hz : 0 ≤ z) : 0 < pqRatio z := by
  rw [pqRatio, pqC1, pqC2, pqC3]
  positivity

theorem pqRatio_lt {z1 z2 : ℝ} (h0 : 0 ≤ z1) (h : z1 < z2) :
    pqRatio z1 < pqRatio z2 := by
  have hd1 : (0:ℝ) < 1 + pqC3 * z1 := by rw [pqC3]; nlinarith
  have hd2 : (0:ℝ) < 1 + pqC3 * z2 := by rw [pqC3]; nlinarith
  rw [pqRatio, pqRatio, div_lt_div_iff₀ hd1 hd2]
  rw [pqC1, pqC2, pqC3]
  rw [pqC3] at hd1 hd2
  nlinarith

theorem pqRatio_le_one {z : ℝ} (h0 : 0 ≤ z) (hz : z ≤ 1) : pqRatio z ≤ 1 := by
  rw [pqRatio, div_le_one (by rw [pqC3]; positivity)]
  rw [pqC1, pqC2, pqC3]
  linarith

theorem pqRatio_zero : pqRatio 0 = pqC1 := by
  rw [pqRatio]
  norm_num

theorem pqRatio_one : pqRatio 1 = 1 := by
  rw [pqRatio, pqC1, pqC2, pqC3]
  norm_num

theorem linear_to_pq_zero (t : ℝ) : linear_to_pq t 0 = pqC1 ^ pqM2 := by
  rw [linear_to_pq_eq]
  rw [show (0 : ℝ) * t / 10000 = 0 by ring]
  rw [Real.zero_rpow (by rw [pqM1]; norm_num), pqRatio_zero]

theorem pq_encode_nits_zero : pq_encode_nits 0 = pqC1 ^ pqM2 := by
  rw [pq_encode_nits, show (0:ℝ) / 10000 = 0 by norm_num, linear_to_pq_zero]

theorem pq_encode_nits_lt {a b : ℝ} (h0 : 0 ≤ a) (h : a < b) :
    pq_encode_nits a < pq_encode_nits b := by
  rw [pq_encode_nits_eq, pq_encode_nits_eq]
  have hz : (a / 10000) ^ pqM1 < (b / 10000) ^ pqM1 :=
    Real.rpow_lt_rpow (by positivity) (by linarith)
      (by rw [pqM1]; norm_num)
  have hz0 : (0:ℝ) ≤ (a / 10000) ^ pqM1 := Real.rpow_nonneg (by positivity) _
  exact Real.rpow_lt_rpow (pqRatio_pos hz0).le (pqRatio_lt hz0 hz)
    (by rw [pqM2]; norm_num)

theorem pq_encode_nits_nonneg {n : ℝ} (h0 : 0 ≤ n) : 0 ≤ pq_encode_nits n := by
  rw [pq_encode_nits_eq]
  exact (Real.rpow_nonneg (pqRatio_pos (Real.rpow_nonneg (by positivity) _)).le _)

theorem pq_encode_nits_10000 : pq_encode_nits 10000 = 1 := by
  rw [pq_encode_nits_eq]
  rw [show (10000 : ℝ) / 10000 = 1 by norm_num, Real.one_rpow, pqRatio_one,
    Real.one_rpow]

theorem pq_encode_nits_le_one {n : ℝ} (h0 : 0 ≤ n) (h1 : n ≤ 10000) :
    pq_encode_nits n ≤ 1 := by
  rcases h1.lt_or_eq with h | h
  · exact le_of_lt (pq_encode_nits_10000 ▸ pq_encode_nits_lt h0 h)
  · rw [h, pq_encode_nits_10000]

/-- PQ round trip: decoding an encoded luminance in `[0, 10000]` nits gives
back the luminance exactly (in exact real arithmetic). -/
theorem pq_decode_encode_nits {n : ℝ} (h0 : 0 ≤ n) (h1 : n ≤ 10000) :
    pq_decode_nits (pq_encode_nits n) = n := by
  have hy0 : (0:ℝ) ≤ n / 10000 := by positivity
  have hz0 : (0:ℝ) ≤ (n / 10000) ^ pqM1 := Real.rpow_nonneg hy0 _
  set z := (n / 10000) ^ pqM1 with hzdef
  have hden : (0:ℝ) < 1 + pqC3 * z := by rw [pqC3]; positivity
  have hratio : 0 < pqRatio z := pqRatio_pos hz0
  rw [pq_decode_nits, pq_to_linear, pq_encode_nits_eq]
  rw [if_neg (not_lt.2 (Real.rpow_nonneg hratio.le pqM2))]
  have hw : (pqRatio z ^ pqM2) ^ (1 / pqM2) = pqRatio z := by
    rw [← Real.rpow_mul hratio.le,
      show pqM2 * (1 / pqM2) = 1 by rw [pqM2]; norm_num, Real.rpow_one]
  rw [hw]
  have hnum : pqRatio z - pqC1 = (pqC2 - pqC1 * pqC3) * z / (1 + pqC3 * z) := by
    rw [pqRatio]
    field_simp
    ring
  have hnum0 : 0 ≤ pqRatio z - pqC1 := by
    rw [hnum]
    have : (0:ℝ) < pqC2 - pqC1 * pqC3 := by rw [pqC1, pqC2, pqC3]; norm_num
    positivity
  have hden2 : pqC2 - pqC3 * pqRatio z = (pqC2 - pqC1 * pqC3) / (1 + pqC3 * z) := by
    rw [pqRatio]
    field_simp
    ring
  have hzz : max (pqRatio z - pqC1) 0 / (pqC2 - pqC3 * pqRatio z) = z := by
    rw [max_eq_left hnum0, hnum, hden2]
    have hC : (0:ℝ) < pqC2 - pqC1 * pqC3 := by rw [pqC1, pqC2, pqC3]; norm_num
    field_simp
  rw [hzz, hzdef]
  rw [← Real.rpow_mul hy0]
  rw [show pqM1 * (1 / pqM1) = 1 by rw [pqM1]; norm_num]
  rw [Real.rpow_one]
  field_simp

/-! ## Rational bounds for real powers -/

theorem le_rpow_of_pow_le {x c : ℝ} {n d : ℕ} (hx0 : 0 ≤ x) (hc0 : 0 ≤ c)
    (hd : d ≠ 0) (h : c ^ d ≤ x ^ n) : c ≤ x ^ ((n : ℝ) / d) := by
  have hstep : (c ^ (d:ℕ) : ℝ) ^ ((1:ℝ) / d) ≤ (x ^ (n:ℕ) : ℝ) ^ ((1:ℝ) / d) :=
    Real.rpow_le_rpow (by positivity) h (by positivity)
  rw [← Real.rpow_natCast c d, ← Real.rpow_natCast x n,
    ← Real.rpow_mul hc0, ← Real.rpow_mul hx0] at hstep
  have hd0 : ((d:ℝ)) ≠ 0 := Nat.cast_ne_zero.2 hd
  rw [show (d:ℝ) * (1 / d) = 1 by field_simp, Real.rpow_one] at hstep
  rw [show (n:ℝ) * (1 / d) = (n:ℝ) / d by ring] at hstep
  exact hstep

theorem rpow_le_of_pow_le {x c : ℝ} {n d : ℕ} (hx0 : 0 ≤ x) (hc0 : 0 ≤ c)
    (hd : d ≠ 0) (h : x ^ n ≤ c ^ d) : x ^ ((n : ℝ) / d) ≤ c := by
  have hstep : (x ^ (n:ℕ) : ℝ) ^ ((1:ℝ) / d) ≤ (c ^ (d:ℕ) : ℝ) ^ ((1:ℝ) / d) :=
    Real.rpow_le_rpow (by positivity) h (by positivity)
  rw [← Real.rpow_natCast c d, ← Real.rpow_natCast x n,
    ← Real.rpow_mul hc0, ← Real.rpow_mul hx0] at hstep
  have hd0 : ((d:ℝ)) ≠ 0 := Nat.cast_ne_zero.2 hd
  rw [show (d:ℝ) * (1 / d) = 1 by field_simp, Real.rpow_one] at hstep
  rw [show (n:ℝ) * (1 / d) = (n:ℝ) / d by ring] at hstep
  exact hstep

/-! ## Numeric bounds used by the black-preservation and peak claims -/

theorem eps0_pos : (0:ℝ) < pqC1 ^ pqM2 :=
  Real.rpow_pos_of_pos (by rw [pqC1]; norm_num) _

theorem eps0_le : pqC1 ^ pqM2 ≤ 8.6e-7 := by
  have h1 : pqC1 ^ pqM2 ≤ pqC1 ^ (((78:ℕ)):ℝ) :=
    Real.rpow_le_rpow_of_exponent_ge (by rw [pqC1]; norm_num)
      (by rw [pqC1]; norm_num) (by rw [pqM2]; norm_num)
  rw [Real.rpow_natCast] at h1
  calc pqC1 ^ pqM2 ≤ pqC1 ^ (78:ℕ) := h1
    _ ≤ 8.6e-7 := by rw [pqC1]; norm_num

theorem log_thirtythree : (3:ℝ) ≤ Real.log 33 := by
  rw [Real.le_log_iff_exp_le (by norm_num : (0:ℝ) < 33)]
  have h3 : Real.exp 3 = Real.exp 1 ^ (3:ℕ) := by
    rw [← Real.exp_nat_mul]; norm_num
  rw [h3]
  calc Real.exp 1 ^ (3:ℕ) ≤ 2.7182818286 ^ (3:ℕ) := by
        refine pow_le_pow_left (Real.exp_pos 1).le Real.exp_one_lt_d9.le 3
    _ ≤ 33 := by norm_num

theorem rho_log_bound {ρ : ℝ} (h1 : 1 < ρ) (h2 : ρ ≤ 33) :
    ρ - 1 ≤ 12 * Real.log ρ := by
  have hconc : ConcaveOn ℝ (Set.Ioi (0:ℝ)) Real.log :=
    strictConcaveOn_log_Ioi.concaveOn
  have hmem1 : (1:ℝ) ∈ Set.Ioi (0:ℝ) := by norm_num
  have hmem33 : (33:ℝ) ∈ Set.Ioi (0:ℝ) := by norm_num
  have hla : (0:ℝ) ≤ (33 - ρ) / 32 := by linarith
  have hlb : (0:ℝ) ≤ (ρ - 1) / 32 := by linarith
  have hsum : (33 - ρ) / 32 + (ρ - 1) / 32 = 1 := by ring
  have hkey := hconc.2 hmem1 hmem33 hla hlb hsum
  simp only [smul_eq_mul, Real.log_one, mul_zero, zero_add] at hkey
  rw [show (33 - ρ) / 32 * 1 + (ρ - 1) / 32 * 33 = ρ by ring] at hkey
  have h33 := log_thirtythree
  nlinarith [hkey]

theorem bt2446a_knee_small (p : Bt2446aParams) (hh : 1 < p.rho_hdr)
    (h33 : p.rho_hdr ≤ 33) (hln : p.ln_rho_hdr = Real.log p.rho_hdr)
    (hs : 1 < p.rho_sdr) {y : ℝ} (hy0 : 0 ≤ y) (hy : y ≤ 1e-4) :
    bt2446a_knee p y ≤ 13 * y := by
  have hc : p.rho_hdr - 1 ≤ 12 * Real.log p.rho_hdr := rho_log_bound hh h33
  have hx := kneeLogCompress_le p hh hln hc hy0
  have hx0 := kneeLogCompress_nonneg p hh hln hy0
  have hxsmall : kneeLogCompress p y ≤ 0.7399 := by linarith
  rw [bt2446a_knee, kneePiecewise_eq_low hxsmall]
  have hk0 : (0:ℝ) ≤ 1.0770 * kneeLogCompress p y := by linarith
  have hk1 : 1.0770 * kneeLogCompress p y ≤ 1 := by linarith
  calc kneeExpand p (1.0770 * kneeLogCompress p y) ≤
        1.0770 * kneeLogCompress p y := kneeExpand_le_self p hs hk0 hk1
    _ ≤ 1.0770 * (12 * y) := by linarith
    _ ≤ 13 * y := by linarith

theorem pq_to_linear_small {s v : ℝ} (hs1 : 1 ≤ s) (hv0 : 0 ≤ v)
    (hv : v ≤ 1.2e-5) : 0 ≤ pq_to_linear s v ∧ pq_to_linear s v ≤ 5e-8 := by
  have hs0 : (0:ℝ) < s := by linarith
  have hw0 : (0:ℝ) ≤ v ^ (1 / pqM2) := Real.rpow_nonneg hv0 _
  have hwle : v ^ (1 / pqM2) ≤ 0.868 := by
    have hA : ((0.868:ℝ) ^ (79:ℕ)) ≤ (0.868:ℝ) ^ pqM2 := by
      have := Real.rpow_le_rpow_of_exponent_ge (show (0:ℝ) < 0.868 by norm_num)
        (show (0.868:ℝ) ≤ 1 by norm_num) (show pqM2 ≤ ((79:ℕ):ℝ) by rw [pqM2]; norm_num)
      rwa [Real.rpow_natCast] at this
    have hB : v ≤ (0.868:ℝ) ^ pqM2 := by
      calc v ≤ 1.2e-5 := hv
        _ ≤ (0.868:ℝ) ^ (79:ℕ) := by norm_num
        _ ≤ (0.868:ℝ) ^ pqM2 := hA
    have hC : v ^ (1 / pqM2) ≤ ((0.868:ℝ) ^ pqM2) ^ (1 / pqM2) :=
      Real.rpow_le_rpow hv0 hB (by rw [pqM2]; norm_num)
    rwa [← Real.rpow_mul (by norm_num : (0:ℝ) ≤ 0.868),
      show pqM2 * (1 / pqM2) = 1 by rw [pqM2]; norm_num, Real.rpow_one] at hC
  have hden : (0:ℝ) < pqC2 - pqC3 * v ^ (1 / pqM2) := by
    rw [pqC2, pqC3]
    nlinarith
  have hnum0 : (0:ℝ) ≤ max (v ^ (1 / pqM2) - pqC1) 0 := le_max_right _ _
  have hnumle : max (v ^ (1 / pqM2) - pqC1) 0 ≤ 0.868 - pqC1 := by
    refine max_le (by linarith) (by rw [pqC1]; norm_num)
  have hdenlb : (0:ℝ) < pqC2 - pqC3 * 0.868 := by rw [pqC2, pqC3]; norm_num
  have hdenge : pqC2 - pqC3 * 0.868 ≤ pqC2 - pqC3 * v ^ (1 / pqM2) := by
    rw [pqC3]
    nlinarith
  have hz0 : (0:ℝ) ≤ max (v ^ (1 / pqM2) - pqC1) 0 /
      (pqC2 - pqC3 * v ^ (1 / pqM2)) := div_nonneg hnum0 hden.le
  have hzle : max (v ^ (1 / pqM2) - pqC1) 0 /
      (pqC2 - pqC3 * v ^ (1 / pqM2)) ≤ 0.0122 := by
    calc max (v ^ (1 / pqM2) - pqC1) 0 / (pqC2 - pqC3 * v ^ (1 / pqM2)) ≤
          (0.868 - pqC1) / (pqC2 - pqC3 * 0.868) :=
        div_le_div (by rw [pqC1]; norm_num) hnumle hdenlb hdenge
      _ ≤ 0.0122 := by rw [pqC1, pqC2, pqC3]; norm_num
  have hzf : (max (v ^ (1 / pqM2) - pqC1) 0 /
      (pqC2 - pqC3 * v ^ (1 / pqM2))) ^ (1 / pqM1) ≤ 3.4e-12 := by
    have h1 : (max (v ^ (1 / pqM2) - pqC1) 0 /
        (pqC2 - pqC3 * v ^ (1 / pqM2))) ^ (1 / pqM1) ≤ (0.0122:ℝ) ^ (1 / pqM1) :=
      Real.rpow_le_rpow hz0 hzle (by rw [pqM1]; norm_num)
    have h2 : (0.0122:ℝ) ^ (1 / pqM1) ≤ (0.0122:ℝ) ^ (((6:ℕ)):ℝ) :=
      Real.rpow_le_rpow_of_exponent_ge (by norm_num) (by norm_num)
        (by rw [pqM1]; norm_num)
    rw [Real.rpow_natCast] at h2
    calc (max (v ^ (1 / pqM2) - pqC1) 0 /
        (pqC2 - pqC3 * v ^ (1 / pqM2))) ^ (1 / pqM1) ≤ (0.0122:ℝ) ^ (1 / pqM1) := h1
      _ ≤ (0.0122:ℝ) ^ (6:ℕ) := h2
      _ ≤ 3.4e-12 := by norm_num
  have hzf0 : (0:ℝ) ≤ (max (v ^ (1 / pqM2) - pqC1) 0 /
      (pqC2 - pqC3 * v ^ (1 / pqM2))) ^ (1 / pqM1) := Real.rpow_nonneg hz0 _
  have hscale0 : (0:ℝ) < 10000 / s := by positivity
  have hscale : 10000 / s ≤ 10000 := by
    rw [div_le_iff₀ hs0]
    nlinarith
  constructor
  · rw [pq_to_linear, if_neg (not_lt.2 hv0)]
    positivity
  · rw [pq_to_linear, if_neg (not_lt.2 hv0)]
    calc (max (v ^ (1 / pqM2) - pqC1) 0 /
          (pqC2 - pqC3 * v ^ (1 / pqM2))) ^ (1 / pqM1) * (10000 / s) ≤
        3.4e-12 * 10000 := by
          refine mul_le_mul hzf hscale hscale0.le (by norm_num)
      _ ≤ 5e-8 := by norm_num

/-! ## Matrix constants of the IPTPQc4 path -/

/-- `LMS_PQ_TO_IPT` maps `(1,1,1)` to `(1,0,0)`, so the first column of its
Cramer's-rule inverse is exactly `(1,1,1)`. -/
theorem IPT_TO_LMS_PQ_first_col :
    IPT_TO_LMS_PQ.m00 = 1 ∧ IPT_TO_LMS_PQ.m10 = 1 ∧ IPT_TO_LMS_PQ.m20 = 1 := by
  refine ⟨?_, ?_, ?_⟩ <;> norm_num [IPT_TO_LMS_PQ, inv_3x3, LMS_PQ_TO_IPT]

/-- The row sums of `LMS_TO_RGB` are within `[0, 1.01]` (they are `1` up to
the `5.2e-6` deficit of the first row of `RGB_TO_LMS`). -/
theorem LMS_TO_RGB_row_sums :
    (0 ≤ LMS_TO_RGB.m00 + LMS_TO_RGB.m01 + LMS_TO_RGB.m02 ∧
      LMS_TO_RGB.m00 + LMS_TO_RGB.m01 + LMS_TO_RGB.m02 ≤ 1.01) ∧
    (0 ≤ LMS_TO_RGB.m10 + LMS_TO_RGB.m11 + LMS_TO_RGB.m12 ∧
      LMS_TO_RGB.m10 + LMS_TO_RGB.m11 + LMS_TO_RGB.m12 ≤ 1.01) ∧
    (0 ≤ LMS_TO_RGB.m20 + LMS_TO_RGB.m21 + LMS_TO_RGB.m22 ∧
      LMS_TO_RGB.m20 + LMS_TO_RGB.m21 + LMS_TO_RGB.m22 ≤ 1.01) := by
  refine ⟨⟨?_, ?_⟩, ⟨?_, ?_⟩, ⟨?_, ?_⟩⟩ <;>
    norm_num [LMS_TO_RGB, inv_3x3, RGB_TO_LMS]

theorem mapTriples_nil (f : ℝ → ℝ → ℝ → ℝ × ℝ × ℝ) : mapTriples f [] = [] := rfl

theorem mapTriples_cons3 (f : ℝ → ℝ → ℝ → ℝ × ℝ × ℝ) (r g b : ℝ) (rest : List ℝ) :
    mapTriples f (r :: g :: b :: rest) =
      (f r g b).1 :: (f r g b).2.1 :: (f r g b).2.2 :: mapTriples f rest := rfl

/-! ## Numeric bounds for the `[0,10000] → [0,203]` witness parameters -/

theorem pqRatio_mono {z1 z2 : ℝ} (h0 : 0 ≤ z1) (h : z1 ≤ z2) :
    pqRatio z1 ≤ pqRatio z2 := by
  rcases h.lt_or_eq with h' | h'
  · exact (pqRatio_lt h0 h').le
  · rw [h']

theorem pq203_bounds :
    0.55 ≤ pq_encode_nits 203 ∧ pq_encode_nits 203 ≤ 0.597 := by
  rw [pq_encode_nits_eq]
  have hx0 : (0:ℝ) < 203 / 10000 := by norm_num
  have hx1 : (203:ℝ) / 10000 ≤ 1 := by norm_num
  have hz0 : (0:ℝ) ≤ (203 / 10000 : ℝ) ^ pqM1 := Real.rpow_nonneg hx0.le _
  have hz_lo : (0.53:ℝ) ≤ (203 / 10000 : ℝ) ^ pqM1 := by
    have hstep1 : (203 / 10000 : ℝ) ^ (((4:ℕ):ℝ) / ((25:ℕ):ℝ)) ≤
        (203 / 10000 : ℝ) ^ pqM1 := by
      refine Real.rpow_le_rpow_of_exponent_ge hx0 hx1 ?_
      rw [pqM1]; push_cast; norm_num
    have hstep2 : (0.53:ℝ) ≤ (203 / 10000 : ℝ) ^ (((4:ℕ):ℝ) / ((25:ℕ):ℝ)) :=
      le_rpow_of_pow_le hx0.le (by norm_num) (by norm_num) (by norm_num)
    linarith
  have hz_hi : (203 / 10000 : ℝ) ^ pqM1 ≤ 0.545 := by
    have hstep1 : (203 / 10000 : ℝ) ^ pqM1 ≤
        (203 / 10000 : ℝ) ^ (((159:ℕ):ℝ) / ((1000:ℕ):ℝ)) := by
      refine Real.rpow_le_rpow_of_exponent_ge hx0 hx1 ?_
      rw [pqM1]; push_cast; norm_num
    have hstep2 : (203 / 10000 : ℝ) ^ (((159:ℕ):ℝ) / ((1000:ℕ):ℝ)) ≤ 0.545 :=
      rpow_le_of_pow_le hx0.le (by norm_num) (by norm_num) (by norm_num)
    linarith
  constructor
  · have hr : (0.9929:ℝ) ≤ pqRatio ((203 / 10000 : ℝ) ^ pqM1) := by
      calc (0.9929:ℝ) ≤ pqRatio 0.53 := by
            rw [pqRatio, pqC1, pqC2, pqC3]; rw [le_div_iff₀ (by norm_num)]; norm_num
        _ ≤ pqRatio ((203 / 10000 : ℝ) ^ pqM1) := pqRatio_mono (by norm_num) hz_lo
    have h1 : ((0.9929:ℝ) ^ (79:ℕ)) ≤ (0.9929:ℝ) ^ pqM2 := by
      have := Real.rpow_le_rpow_of_exponent_ge (show (0:ℝ) < 0.9929 by norm_num)
        (show (0.9929:ℝ) ≤ 1 by norm_num) (show pqM2 ≤ ((79:ℕ):ℝ) by rw [pqM2]; norm_num)
      rwa [Real.rpow_natCast] at this
    have h2 : (0.9929:ℝ) ^ pqM2 ≤ pqRatio ((203 / 10000 : ℝ) ^ pqM1) ^ pqM2 :=
      Real.rpow_le_rpow (by norm_num) hr (by rw [pqM2]; norm_num)
    have h3 : (0.55:ℝ) ≤ (0.9929:ℝ) ^ (79:ℕ) := by norm_num
    linarith
  · have hr : pqRatio ((203 / 10000 : ℝ) ^ pqM1) ≤ 0.9934 := by
      calc pqRatio ((203 / 10000 : ℝ) ^ pqM1) ≤ pqRatio 0.545 :=
            pqRatio_mono hz0 hz_hi
        _ ≤ 0.9934 := by
            rw [pqRatio, pqC1, pqC2, pqC3]; rw [div_le_iff₀ (by norm_num)]; norm_num
    have h1 : pqRatio ((203 / 10000 : ℝ) ^ pqM1) ^ pqM2 ≤ (0.9934:ℝ) ^ pqM2 :=
      Real.rpow_le_rpow (pqRatio_pos hz0).le hr (by rw [pqM2]; norm_num)
    have h2 : (0.9934:ℝ) ^ pqM2 ≤ ((0.9934:ℝ) ^ (78:ℕ)) := by
      have := Real.rpow_le_rpow_of_exponent_ge (show (0:ℝ) < 0.9934 by norm_num)
        (show (0.9934:ℝ) ≤ 1 by norm_num) (show ((78:ℕ):ℝ) ≤ pqM2 by rw [pqM2]; norm_num)
      rwa [Real.rpow_natCast] at this
    have h3 : ((0.9934:ℝ) ^ (78:ℕ)) ≤ 0.597 := by norm_num
    linarith

/-- The sign-preserving PQ decode is nonpositive on nonpositive-side codes:
for any code `v` with `-1 ≤ v ≤ pqC1 ^ pqM2` (the encode of 0 nits), the
decode is `≤ 0` — negative codes decode to negated magnitudes, and
nonnegative codes up to the zero-nits code have `v^(1/m2) ≤ c1`, so the
`max(·, 0)` numerator collapses to `0`. -/
theorem pq_to_linear_nonpos {s v : ℝ} (hs : 0 < s) (hv1 : -1 ≤ v)
    (hveps : v ≤ pqC1 ^ pqM2) : pq_to_linear s v ≤ 0 := by
  rcases lt_or_le v 0 with hv | hv
  · rw [pq_to_linear, if_pos hv]
    have hb0 : (0:ℝ) ≤ -v := by linarith
    have hxp1 : (-v) ^ (1 / pqM2) ≤ 1 :=
      Real.rpow_le_one hb0 (by linarith) (by rw [pqM2]; norm_num)
    have hden : (0:ℝ) < pqC2 - pqC3 * (-v) ^ (1 / pqM2) := by
      rw [pqC2, pqC3]
      nlinarith [Real.rpow_nonneg hb0 (1 / pqM2)]
    have hpow : (0:ℝ) ≤ (max ((-v) ^ (1 / pqM2) - pqC1) 0 /
        (pqC2 - pqC3 * (-v) ^ (1 / pqM2))) ^ (1 / pqM1) :=
      Real.rpow_nonneg (div_nonneg (le_max_right _ _) hden.le) _
    have hsc : (0:ℝ) ≤ 10000 / s := by positivity
    nlinarith [mul_nonneg hpow hsc]
  · rw [pq_to_linear, if_neg (not_lt.2 hv)]
    have hc10 : (0:ℝ) ≤ pqC1 := by rw [pqC1]; norm_num
    have hm2ne : pqM2 ≠ 0 := by rw [pqM2]; norm_num
    have hkey : (pqC1 ^ pqM2) ^ (1 / pqM2) = pqC1 := by
      rw [← Real.rpow_mul hc10, mul_one_div, div_self hm2ne, Real.rpow_one]
    have hxp : v ^ (1 / pqM2) ≤ pqC1 := by
      have h3 : v ^ (1 / pqM2) ≤ (pqC1 ^ pqM2) ^ (1 / pqM2) :=
        Real.rpow_le_rpow hv hveps (by rw [pqM2]; norm_num)
      rwa [hkey] at h3
    rw [max_eq_right (by linarith : v ^ (1 / pqM2) - pqC1 ≤ 0), zero_div,
      Real.zero_rpow (by rw [pqM1]; norm_num), zero_mul]

/-- `pq_decode_nits` is nonpositive on codes at or below the zero-nits code. -/
theorem pq_decode_nits_nonpos {v : ℝ} (hv1 : -1 ≤ v)
    (hveps : v ≤ pqC1 ^ pqM2) : pq_decode_nits v ≤ 0 := by
  rw [pq_decode_nits]
  have h := pq_to_linear_nonpos (show (0:ℝ) < 10000 by norm_num) hv1 hveps
  linarith

/-- The witness Rec.2408 parameters (`[0,10000] → [0,203]` nits) have a
positive spline knee point `ks`, with `1 - ks` well above the `1e-6` guard. -/
theorem rec2408_witness_ks :
    0 < (Rec2408Params.new (0, 10000) (0, 203)).ks ∧
    1e-6 ≤ 1 - (Rec2408Params.new (0, 10000) (0, 203)).ks := by
  have hks : (Rec2408Params.new (0, 10000) (0, 203)).ks =
      1.5 * ((pq_encode_nits 203 - pq_encode_nits 0) *
        (1 / (pq_encode_nits 10000 - pq_encode_nits 0))) - 0.5 := rfl
  obtain ⟨hlo, hhi⟩ := pq203_bounds
  have heps_pos : (0:ℝ) < pq_encode_nits 0 := by
    rw [pq_encode_nits_zero]; exact eps0_pos
  have heps_le : pq_encode_nits 0 ≤ 8.6e-7 := by
    rw [pq_encode_nits_zero]; exact eps0_le
  rw [hks, pq_encode_nits_10000]
  have hden_pos : (0:ℝ) < 1 - pq_encode_nits 0 := by linarith
  have hfrac_lo : (0.549:ℝ) ≤ (pq_encode_nits 203 - pq_encode_nits 0) *
      (1 / (1 - pq_encode_nits 0)) := by
    have hnum : (0.549:ℝ) ≤ pq_encode_nits 203 - pq_encode_nits 0 := by linarith
    have hinv : (1:ℝ) ≤ 1 / (1 - pq_encode_nits 0) := by
      rw [le_div_iff₀ hden_pos]; linarith
    nlinarith
  have hfrac_hi : (pq_encode_nits 203 - pq_encode_nits 0) *
      (1 / (1 - pq_encode_nits 0)) ≤ 0.598 := by
    have hnum : pq_encode_nits 203 - pq_encode_nits 0 ≤ 0.597 := by linarith
    have hnum0 : (0:ℝ) ≤ pq_encode_nits 203 - pq_encode_nits 0 := by linarith
    have hinv : (1:ℝ) / (1 - pq_encode_nits 0) ≤ 1.001 := by
      rw [div_le_iff₀ hden_pos]; linarith
    nlinarith
  constructor
  · linarith
  · linarith

/-- Closed form of the Hermite spline at a black (zero) PQ input when the
parameters satisfy the constructor relation `max_lum = (ks + 0.5) / 1.5`
(i.e. `ks = 1.5 * max_lum - 0.5`) and the `1e-6` guard on `1 - ks` is
inactive: with `t = (0 - ks) / (1 - ks)`, the spline value collapses to
`-t^2 * (1 - (2/3) * ks)`. -/
theorem hermite_spline_zero_eq (p : Rec2408Params)
    (hksM : p.max_lum = (p.ks + 0.5) / 1.5)
    (hiomk : p.inv_one_minus_ks = 1 / (1 - p.ks))
    (hne : (1:ℝ) - p.ks ≠ 0) :
    p.hermite_spline 0 =
      -(((0 - p.ks) * (1 / (1 - p.ks))) ^ 2) * (1 - 2 / 3 * p.ks) := by
  simp only [Rec2408Params.hermite_spline, hiomk, hksM]
  field_simp
  ring

/-- With a nonpositive knee point the Hermite spline sends black to a
nonpositive PQ code. -/
theorem hermite_spline_zero_nonpos (p : Rec2408Params)
    (hksM : p.max_lum = (p.ks + 0.5) / 1.5)
    (hiomk : p.inv_one_minus_ks = 1 / (1 - p.ks))
    (hks : p.ks ≤ 0) :
    p.hermite_spline 0 ≤ 0 := by
  have hκ : (0:ℝ) < 1 - p.ks := by linarith
  rw [hermite_spline_zero_eq p hksM hiomk hκ.ne']
  nlinarith [sq_nonneg ((0 - p.ks) * (1 / (1 - p.ks)))]

/-! ## Black-pixel behavior of the four kernels -/

theorem tone_map_bt2446a_pixel_black (p : Bt2446aParams) (lr lg lb : ℝ) :
    tone_map_bt2446a_pixel p lr lg lb 0 0 0 = (0, 0, 0) := by
  simp only [tone_map_bt2446a_pixel, max_self]
  rw [Real.zero_rpow (by norm_num : ((1:ℝ)/2.4) ≠ 0)]
  simp

theorem tone_map_bt2446a_linear_pixel_black (p : Bt2446aParams) (lr lg lb : ℝ) :
    tone_map_bt2446a_linear_pixel p lr lg lb 0 0 0 = (0, 0, 0) := by
  simp [tone_map_bt2446a_linear_pixel]

theorem gamut_map_zero (lr lg lb : ℝ) : gamut_map 0 0 0 lr lg lb = (0, 0, 0) := by
  norm_num [gamut_map, gamutStep, invValMinusGray, clamp, PRESERVE_SATURATION]

theorem gamut_map_ones (lr lg lb : ℝ) (hsum : lr + lg + lb = 1) :
    gamut_map 1 1 1 lr lg lb = (1, 1, 1) := by
  have hlam : lr * 1 + lg * 1 + lb * 1 = 1 := by linarith
  simp only [gamut_map, hlam]
  norm_num [gamutStep, invValMinusGray, clamp, PRESERVE_SATURATION]

/-- The Rec.2408 kernel maps a black pixel to black for every valid range
pair `0 < T < S ≤ 10000` nits. When the knee point `ks` is positive the
knee is inactive at black and the PQ round trip returns 0 exactly; when
`ks ≤ 0` the Hermite spline sends black to a nonpositive PQ code below the
zero-nits code, whose sign-preserving decode is nonpositive, so the clamp
to `[0, T]` returns 0. -/
theorem tone_map_rec2408_pixel_black (S T lr lg lb : ℝ) (hT : 0 < T)
    (hTS : T < S) (hS : S ≤ 10000) :
    tone_map_rec2408_pixel (Rec2408Params.new (0, S) (0, T)) lr lg lb 0 0 0 =
      (0, 0, 0) := by
  set P := Rec2408Params.new (0, S) (0, T) with hP
  have hmin : P.pq_mastering_min = pq_encode_nits 0 := rfl
  have htgt : P.target_peak = T := rfl
  have hml : P.min_lum = 0 := by
    rw [hP]
    simp [Rec2408Params.new]
  simp only [tone_map_rec2408_pixel]
  rw [show P.source_peak * (lr * 0 + lg * 0 + lb * 0) = 0 by ring]
  rw [show (pq_encode_nits 0 - P.pq_mastering_min) * P.inv_pq_mastering_range = 0 by
    rw [hmin]; ring]
  rw [show min (0:ℝ) 1 = 0 by norm_num]
  rcases lt_or_le 0 P.ks with hks | hks
  · rw [if_pos hks]
    rw [show P.min_lum * ((1 - 0) * (1 - 0) * ((1 - 0) * (1 - 0))) + 0 = P.min_lum by ring]
    rw [show P.min_lum * P.pq_mastering_range + P.pq_mastering_min = pq_encode_nits 0 by
      rw [hP]; simp only [Rec2408Params.new]; ring]
    rw [pq_decode_encode_nits le_rfl (by norm_num)]
    rw [show clamp 0 0 P.target_peak = 0 by
      rw [clamp, max_self, min_eq_left]; rw [htgt]; exact hT.le]
    rw [if_pos (by norm_num : (0:ℝ) ≤ 1e-6)]
    rw [show (0:ℝ) * P.inv_target_peak = 0 by ring]
    exact gamut_map_zero lr lg lb
  · rw [if_neg (not_lt.2 hks)]
    have hκ : (0:ℝ) < 1 - P.ks := by linarith
    have hiomk : P.inv_one_minus_ks = 1 / (1 - P.ks) := by
      rw [show P.inv_one_minus_ks = 1 / max (1 - P.ks) 1e-6 from rfl,
        max_eq_left (by linarith : (1e-6:ℝ) ≤ 1 - P.ks)]
    have hksM : P.max_lum = (P.ks + 0.5) / 1.5 := by
      rw [show P.ks = 1.5 * P.max_lum - 0.5 from rfl]; ring
    have hsp_le : P.hermite_spline 0 ≤ 0 :=
      hermite_spline_zero_nonpos P hksM hiomk hks
    have hpqT : pq_encode_nits 0 < pq_encode_nits T := pq_encode_nits_lt le_rfl hT
    have hpqS : pq_encode_nits 0 < pq_encode_nits S :=
      pq_encode_nits_lt le_rfl (by linarith)
    have hM_pos : (0:ℝ) < P.max_lum := by
      rw [show P.max_lum = (pq_encode_nits T - pq_encode_nits 0) *
        (1 / (pq_encode_nits S - pq_encode_nits 0)) from rfl]
      have hi : (0:ℝ) < 1 / (pq_encode_nits S - pq_encode_nits 0) :=
        one_div_pos.2 (by linarith)
      nlinarith
    have hks_gt : (-0.5:ℝ) < P.ks := by
      rw [show P.ks = 1.5 * P.max_lum - 0.5 from rfl]; linarith
    have ht0 : (0:ℝ) ≤ (0 - P.ks) * (1 / (1 - P.ks)) :=
      mul_nonneg (by linarith) (one_div_pos.2 hκ).le
    have ht13 : (0 - P.ks) * (1 / (1 - P.ks)) ≤ 1 / 3 := by
      rw [mul_one_div, div_le_iff₀ hκ]; linarith
    have hsp_ge : (-1:ℝ) ≤ P.hermite_spline 0 := by
      rw [hermite_spline_zero_eq P hksM hiomk hκ.ne']
      have hX : ((0 - P.ks) * (1 / (1 - P.ks))) ^ 2 ≤ 1 / 9 := by
        nlinarith [mul_nonneg ht0
          (show (0:ℝ) ≤ 1 / 3 - (0 - P.ks) * (1 / (1 - P.ks)) by linarith)]
      have hfac : 1 - 2 / 3 * P.ks ≤ 4 / 3 := by linarith
      have hfac0 : (0:ℝ) ≤ 1 - 2 / 3 * P.ks := by linarith
      nlinarith [mul_le_mul hX hfac hfac0 (by norm_num : (0:ℝ) ≤ 1 / 9)]
    have heps_pos : (0:ℝ) < pq_encode_nits 0 := by
      rw [pq_encode_nits_zero]; exact eps0_pos
    have hprange : P.pq_mastering_range = pq_encode_nits S - pq_encode_nits 0 := rfl
    have hrange_pos : (0:ℝ) < P.pq_mastering_range := by rw [hprange]; linarith
    have hrange_le1 : P.pq_mastering_range ≤ 1 := by
      rw [hprange]
      have h1 : pq_encode_nits S ≤ 1 := pq_encode_nits_le_one (by linarith) hS
      linarith
    have he4_le : P.hermite_spline 0 * P.pq_mastering_range + P.pq_mastering_min ≤
        pqC1 ^ pqM2 := by
      rw [hmin, pq_encode_nits_zero]
      nlinarith [mul_nonneg (show (0:ℝ) ≤ -P.hermite_spline 0 by linarith)
        hrange_pos.le]
    have he4_ge : (-1:ℝ) ≤ P.hermite_spline 0 * P.pq_mastering_range +
        P.pq_mastering_min := by
      rw [hmin]
      nlinarith [mul_nonneg (show (0:ℝ) ≤ -P.hermite_spline 0 by linarith)
        (show (0:ℝ) ≤ 1 - P.pq_mastering_range by linarith)]
    have hdec : pq_decode_nits (P.hermite_spline 0 * P.pq_mastering_range +
        P.pq_mastering_min) ≤ 0 := pq_decode_nits_nonpos he4_ge he4_le
    rw [show P.min_lum * ((1 - P.hermite_spline 0) * (1 - P.hermite_spline 0) *
        ((1 - P.hermite_spline 0) * (1 - P.hermite_spline 0))) + P.hermite_spline 0 =
        P.hermite_spline 0 by rw [hml]; ring]
    rw [show clamp (pq_decode_nits (P.hermite_spline 0 * P.pq_mastering_range +
        P.pq_mastering_min)) 0 P.target_peak = 0 by
      rw [clamp, max_eq_right hdec, min_eq_left (by rw [htgt]; exact hT.le)]]
    rw [if_pos (by norm_num : (0:ℝ) ≤ 1e-6)]
    rw [show (0:ℝ) * P.inv_target_peak = 0 by ring]
    exact gamut_map_zero lr lg lb

theorem tone_map_bt2446a_perceptual_pixel_black (p : Bt2446aParams) (s : ℝ)
    (hh : 1 < p.rho_hdr) (h33 : p.rho_hdr ≤ 33)
    (hln : p.ln_rho_hdr = Real.log p.rho_hdr) (hsd : 1 < p.rho_sdr)
    (hs1 : 1 ≤ s) :
    |(tone_map_bt2446a_perceptual_pixel p s 0 0 0).1| ≤ 1e-5 ∧
    |(tone_map_bt2446a_perceptual_pixel p s 0 0 0).2.1| ≤ 1e-5 ∧
    |(tone_map_bt2446a_perceptual_pixel p s 0 0 0).2.2| ≤ 1e-5 := by
  have heps_pos : (0:ℝ) < pqC1 ^ pqM2 := eps0_pos
  have heps_le : pqC1 ^ pqM2 ≤ 8.6e-7 := eps0_le
  have him0 : 0 < bt2446a_knee p (pqC1 ^ pqM2) :=
    bt2446a_knee_pos p hh hln hsd heps_pos
  have himle : bt2446a_knee p (pqC1 ^ pqM2) ≤ 13 * (pqC1 ^ pqM2) :=
    bt2446a_knee_small p hh h33 hln hsd heps_pos.le (by linarith)
  have himle2 : bt2446a_knee p (pqC1 ^ pqM2) ≤ 1.2e-5 := by linarith
  obtain ⟨hD0, hDle⟩ := pq_to_linear_small hs1 him0.le himle2
  obtain ⟨hc1, hc2, hc3⟩ := IPT_TO_LMS_PQ_first_col
  have hipt1 : LMS_PQ_TO_IPT.m00 * (pqC1 ^ pqM2) + LMS_PQ_TO_IPT.m01 * (pqC1 ^ pqM2) +
      LMS_PQ_TO_IPT.m02 * (pqC1 ^ pqM2) = pqC1 ^ pqM2 := by
    simp only [LMS_PQ_TO_IPT]
    ring_nf
  have hipt2 : LMS_PQ_TO_IPT.m10 * (pqC1 ^ pqM2) + LMS_PQ_TO_IPT.m11 * (pqC1 ^ pqM2) +
      LMS_PQ_TO_IPT.m12 * (pqC1 ^ pqM2) = 0 := by
    simp only [LMS_PQ_TO_IPT]
    ring_nf
  have hipt3 : LMS_PQ_TO_IPT.m20 * (pqC1 ^ pqM2) + LMS_PQ_TO_IPT.m21 * (pqC1 ^ pqM2) +
      LMS_PQ_TO_IPT.m22 * (pqC1 ^ pqM2) = 0 := by
    simp only [LMS_PQ_TO_IPT]
    ring_nf
  have hpix : tone_map_bt2446a_perceptual_pixel p s 0 0 0 =
      mat_mul LMS_TO_RGB
        (pq_to_linear s (bt2446a_knee p (pqC1 ^ pqM2)),
         pq_to_linear s (bt2446a_knee p (pqC1 ^ pqM2)),
         pq_to_linear s (bt2446a_knee p (pqC1 ^ pqM2))) := by
    simp only [tone_map_bt2446a_perceptual_pixel, max_self, mat_mul,
      mul_zero, add_zero, zero_add, linear_to_pq_zero]
    rw [hipt1, hipt2, hipt3]
    rw [if_neg (not_le.2 heps_pos)]
    simp only [zero_mul, mul_zero, add_zero]
    rw [hc1, hc2, hc3]
    simp only [one_mul, mat_mul]
  obtain ⟨⟨hr0, hr1⟩, ⟨hg0, hg1⟩, ⟨hb0, hb1⟩⟩ := LMS_TO_RGB_row_sums
  set D := pq_to_linear s (bt2446a_knee p (pqC1 ^ pqM2)) with hD
  rw [hpix, mat_mul]
  dsimp only
  refine ⟨?_, ?_, ?_⟩
  · rw [show LMS_TO_RGB.m00 * D + LMS_TO_RGB.m01 * D + LMS_TO_RGB.m02 * D =
        (LMS_TO_RGB.m00 + LMS_TO_RGB.m01 + LMS_TO_RGB.m02) * D by ring]
    rw [abs_of_nonneg (mul_nonneg hr0 hD0)]
    calc (LMS_TO_RGB.m00 + LMS_TO_RGB.m01 + LMS_TO_RGB.m02) * D ≤
          (1.01 : ℝ) * 5e-8 := mul_le_mul hr1 hDle hD0 (by norm_num)
      _ ≤ 1e-5 := by norm_num
  · rw [show LMS_TO_RGB.m10 * D + LMS_TO_RGB.m11 * D + LMS_TO_RGB.m12 * D =
        (LMS_TO_RGB.m10 + LMS_TO_RGB.m11 + LMS_TO_RGB.m12) * D by ring]
    rw [abs_of_nonneg (mul_nonneg hg0 hD0)]
    calc (LMS_TO_RGB.m10 + LMS_TO_RGB.m11 + LMS_TO_RGB.m12) * D ≤
          (1.01 : ℝ) * 5e-8 := mul_le_mul hg1 hDle hD0 (by norm_num)
      _ ≤ 1e-5 := by norm_num
  · rw [show LMS_TO_RGB.m20 * D + LMS_TO_RGB.m21 * D + LMS_TO_RGB.m22 * D =
        (LMS_TO_RGB.m20 + LMS_TO_RGB.m21 + LMS_TO_RGB.m22) * D by ring]
    rw [abs_of_nonneg (mul_nonneg hb0 hD0)]
    calc (LMS_TO_RGB.m20 + LMS_TO_RGB.m21 + LMS_TO_RGB.m22) * D ≤
          (1.01 : ℝ) * 5e-8 := mul_le_mul hb1 hDle hD0 (by norm_num)
      _ ≤ 1e-5 := by norm_num

/-! ## Claim C1 -/

/-- Claim C1: every one of the four tone-mapping kernels maps the black
pixel `[0,0,0]` to `[0,0,0]` — exactly for the BT.2446a and BT.2446a-linear
kernels at all parameters, exactly for the Rec.2408 kernel at every valid
range pair `0 < T < S ≤ 10000` nits, and within `1e-5` per channel for the
perceptual (IPTPQc4) kernel under valid parameters (`1 ≤ source ≤ 10000`
nits, `0 < desired < source`). -/
theorem c1_black_preserved :
    (∀ (p : Bt2446aParams) (lr lg lb : ℝ),
      tone_map_bt2446a p lr lg lb [0, 0, 0] = [0, 0, 0]) ∧
    (∀ (p : Bt2446aParams) (lr lg lb : ℝ),
      tone_map_bt2446a_linear p lr lg lb [0, 0, 0] = [0, 0, 0]) ∧
    (∀ (S T lr lg lb : ℝ), 0 < T → T < S → S ≤ 10000 →
      tone_map_rec2408 (Rec2408Params.new (0, S) (0, T)) lr lg lb [0, 0, 0] =
        [0, 0, 0]) ∧
    (∀ s d : ℝ, 1 ≤ s → s ≤ 10000 → 0 < d → d < s →
      ∀ x ∈ tone_map_bt2446a_perceptual (Bt2446aParams.new s d) s [0, 0, 0],
        |x| ≤ 1e-5) := by
  refine ⟨fun p lr lg lb => ?_, fun p lr lg lb => ?_,
    fun S T lr lg lb hT hTS hS => ?_, fun s d hs1 hs2 hd hds => ?_⟩
  · show mapTriples _ _ = _
    rw [mapTriples_cons3, tone_map_bt2446a_pixel_black, mapTriples_nil]
  · show mapTriples _ _ = _
    rw [mapTriples_cons3, tone_map_bt2446a_linear_pixel_black, mapTriples_nil]
  · show mapTriples _ _ = _
    rw [mapTriples_cons3, tone_map_rec2408_pixel_black S T lr lg lb hT hTS hS,
      mapTriples_nil]
  · obtain ⟨hh, hln, hsd, h33⟩ :=
      Bt2446aParams_new_valid (by linarith : (0:ℝ) < s) hs2 hd
    obtain ⟨h1, h2, h3⟩ :=
      tone_map_bt2446a_perceptual_pixel_black (Bt2446aParams.new s d) s hh h33 hln
        hsd hs1
    intro x hx
    have hxl : tone_map_bt2446a_perceptual (Bt2446aParams.new s d) s [0, 0, 0] =
        [(tone_map_bt2446a_perceptual_pixel (Bt2446aParams.new s d) s 0 0 0).1,
         (tone_map_bt2446a_perceptual_pixel (Bt2446aParams.new s d) s 0 0 0).2.1,
         (tone_map_bt2446a_perceptual_pixel (Bt2446aParams.new s d) s 0 0 0).2.2] := by
      show mapTriples _ _ = _
      rw [mapTriples_cons3, mapTriples_nil]
    rw [hxl] at hx
    simp only [List.mem_cons, List.not_mem_nil, or_false] at hx
    rcases hx with hx | hx | hx <;> rw [hx] <;> assumption

/-- Concrete instantiation of claim C1's Rec.2408 conjunct at ranges
`[0, 10000] → [0, 203]`: black is preserved exactly. -/
theorem c1_black_preserved_witness :
    tone_map_rec2408 (Rec2408Params.new (0, 10000) (0, 203)) 0.2627 0.678 0.0593
      [0, 0, 0] = [0, 0, 0] :=
  c1_black_preserved.2.2.1 10000 203 0.2627 0.678 0.0593 (by norm_num)
    (by norm_num) le_rfl

/-! ## Containment properties of `gamut_map` -/

theorem clamp01_nonneg (x : ℝ) : 0 ≤ clamp x 0 1 :=
  le_min (le_max_right x 0) zero_le_one

theorem clamp01_le_one (x : ℝ) : clamp x 0 1 ≤ 1 :=
  min_le_right _ _

theorem gamutStep_fst_mono (L v : ℝ) (acc : ℝ × ℝ) :
    acc.1 ≤ (gamutStep L v acc).1 := by
  rw [gamutStep]
  dsimp only
  split
  · exact le_max_left _ _
  · exact le_rfl

theorem gamutStep_snd_mono (L v : ℝ) (acc : ℝ × ℝ) :
    acc.2 ≤ (gamutStep L v acc).2 :=
  le_max_left _ _

theorem gamutStep_neg (L v : ℝ) (acc : ℝ × ℝ) (h : v - L < 0) :
    v * (1 / (v - L)) ≤ (gamutStep L v acc).1 ∧
    v * (1 / (v - L)) ≤ (gamutStep L v acc).2 := by
  rw [gamutStep]
  dsimp only
  rw [invValMinusGray, if_neg h.ne, if_pos h, if_pos h.le]
  exact ⟨le_max_right _ _, le_trans (le_max_right _ _) (le_max_right _ _)⟩

theorem gamut_channel_nonneg {c L gm : ℝ} (hgm0 : 0 ≤ gm) (hgm1 : gm ≤ 1)
    (hL : 0 ≤ L) (hgmt : c < 0 → c * (1 / (c - L)) ≤ gm) :
    0 ≤ gm * (L - c) + c := by
  rcases lt_or_le c 0 with hc | hc
  · have ht := hgmt hc
    have hden : c - L < 0 := by linarith
    have key : c * (1 / (c - L)) * (L - c) + c = 0 := by
      field_simp [hden.ne]
      ring
    nlinarith [mul_le_mul_of_nonneg_right ht (show (0:ℝ) ≤ L - c by linarith)]
  · nlinarith

/-- Core containment property of `gamut_map`: when the luminance of the input
triple is nonnegative, every output channel lies in `[0, 1]`. -/
theorem gamut_map_mem_unit (r g b lr lg lb : ℝ)
    (hL0 : 0 ≤ lr * r + lg * g + lb * b) :
    (0 ≤ (gamut_map r g b lr lg lb).1 ∧ (gamut_map r g b lr lg lb).1 ≤ 1) ∧
    (0 ≤ (gamut_map r g b lr lg lb).2.1 ∧ (gamut_map r g b lr lg lb).2.1 ≤ 1) ∧
    (0 ≤ (gamut_map r g b lr lg lb).2.2 ∧ (gamut_map r g b lr lg lb).2.2 ≤ 1) := by
  set L := lr * r + lg * g + lb * b with hLdef
  set a1 := gamutStep L r (0, 0) with ha1
  set a2 := gamutStep L g a1 with ha2
  set a3 := gamutStep L b a2 with ha3
  set gm := clamp (PRESERVE_SATURATION * (a3.1 - a3.2) + a3.2) 0 1 with hgm
  have hgm0 : 0 ≤ gm := clamp01_nonneg _
  have hgm1 : gm ≤ 1 := clamp01_le_one _
  have hthr : ∀ t : ℝ, t ≤ a3.1 → t ≤ a3.2 → t ≤ 1 → t ≤ gm := by
    intro t h1 h2 ht1
    rw [hgm, clamp]
    refine le_min (le_trans ?_ (le_max_left _ _)) ht1
    rw [PRESERVE_SATURATION]
    nlinarith
  have hle1 : ∀ v : ℝ, v < 0 → v - L < 0 → v * (1 / (v - L)) ≤ 1 := by
    intro v hv hden
    have hsplit : v * (1 / (v - L)) = 1 + L / (v - L) := by
      field_simp [hden.ne]
    rw [hsplit]
    have : L / (v - L) ≤ 0 := div_nonpos_iff.mpr (Or.inl ⟨hL0, hden.le⟩)
    linarith
  have hthr_r : r < 0 → r * (1 / (r - L)) ≤ gm := by
    intro hc
    have hden : r - L < 0 := by linarith
    obtain ⟨hs, hl⟩ := gamutStep_neg L r (0, 0) hden
    refine hthr _ (le_trans hs ?_) (le_trans hl ?_) (hle1 r hc hden)
    · exact le_trans (gamutStep_fst_mono L g a1) (gamutStep_fst_mono L b a2)
    · exact le_trans (gamutStep_snd_mono L g a1) (gamutStep_snd_mono L b a2)
  have hthr_g : g < 0 → g * (1 / (g - L)) ≤ gm := by
    intro hc
    have hden : g - L < 0 := by linarith
    obtain ⟨hs, hl⟩ := gamutStep_neg L g a1 hden
    refine hthr _ (le_trans hs ?_) (le_trans hl ?_) (hle1 g hc hden)
    · exact gamutStep_fst_mono L b a2
    · exact gamutStep_snd_mono L b a2
  have hthr_b : b < 0 → b * (1 / (b - L)) ≤ gm := by
    intro hc
    have hden : b - L < 0 := by linarith
    obtain ⟨hs, hl⟩ := gamutStep_neg L b a2 hden
    exact hthr _ hs hl (hle1 b hc hden)
  have hr1 : 0 ≤ gm * (L - r) + r := gamut_channel_nonneg hgm0 hgm1 hL0 hthr_r
  have hg1 : 0 ≤ gm * (L - g) + g := gamut_channel_nonneg hgm0 hgm1 hL0 hthr_g
  have hb1 : 0 ≤ gm * (L - b) + b := gamut_channel_nonneg hgm0 hgm1 hL0 hthr_b
  have hEq : gamut_map r g b lr lg lb =
      ((gm * (L - r) + r) *
         (1 / max (max (max (gm * (L - r) + r) (gm * (L - g) + g)) (gm * (L - b) + b)) 1),
       (gm * (L - g) + g) *
         (1 / max (max (max (gm * (L - r) + r) (gm * (L - g) + g)) (gm * (L - b) + b)) 1),
       (gm * (L - b) + b) *
         (1 / max (max (max (gm * (L - r) + r) (gm * (L - g) + g)) (gm * (L - b) + b)) 1)) := by
    rw [hgm, ha3, ha2, ha1, hLdef]
    rfl
  have hmx1 : (1:ℝ) ≤ max (max (max (gm * (L - r) + r) (gm * (L - g) + g))
      (gm * (L - b) + b)) 1 := le_max_right _ _
  have hmx0 : (0:ℝ) < max (max (max (gm * (L - r) + r) (gm * (L - g) + g))
      (gm * (L - b) + b)) 1 := by linarith
  have hmxr : gm * (L - r) + r ≤ max (max (max (gm * (L - r) + r) (gm * (L - g) + g))
      (gm * (L - b) + b)) 1 :=
    le_trans (le_trans (le_max_left _ _) (le_max_left _ _)) (le_max_left _ _)
  have hmxg : gm * (L - g) + g ≤ max (max (max (gm * (L - r) + r) (gm * (L - g) + g))
      (gm * (L - b) + b)) 1 :=
    le_trans (le_trans (le_max_right _ _) (le_max_left _ _)) (le_max_left _ _)
  have hmxb : gm * (L - b) + b ≤ max (max (max (gm * (L - r) + r) (gm * (L - g) + g))
      (gm * (L - b) + b)) 1 :=
    le_trans (le_max_right _ _) (le_max_left _ _)
  rw [hEq]
  dsimp only
  have hinv0 : (0:ℝ) ≤ 1 / max (max (max (gm * (L - r) + r) (gm * (L - g) + g))
      (gm * (L - b) + b)) 1 := by positivity
  refine ⟨⟨mul_nonneg hr1 hinv0, ?_⟩, ⟨mul_nonneg hg1 hinv0, ?_⟩,
    ⟨mul_nonneg hb1 hinv0, ?_⟩⟩
  · rw [mul_one_div, div_le_one hmx0]; exact hmxr
  · rw [mul_one_div, div_le_one hmx0]; exact hmxg
  · rw [mul_one_div, div_le_one hmx0]; exact hmxb

/-! ## Claim C5 -/

/-- Claim C5, part 1 helper: for any input pixel, any nonnegative luminance
weights and parameters built from `[0,S] → [0,T]` ranges with `0 < T`, every
output channel of the Rec.2408 pixel kernel lies in `[0, 1]`. -/
theorem rec2408_pixel_mem_unit (S T lr lg lb r g b : ℝ) (hT : 0 < T)
    (hlr : 0 ≤ lr) (hlg : 0 ≤ lg) (hlb : 0 ≤ lb) :
    (0 ≤ (tone_map_rec2408_pixel (Rec2408Params.new (0, S) (0, T)) lr lg lb r g b).1 ∧
      (tone_map_rec2408_pixel (Rec2408Params.new (0, S) (0, T)) lr lg lb r g b).1 ≤ 1) ∧
    (0 ≤ (tone_map_rec2408_pixel (Rec2408Params.new (0, S) (0, T)) lr lg lb r g b).2.1 ∧
      (tone_map_rec2408_pixel (Rec2408Params.new (0, S) (0, T)) lr lg lb r g b).2.1 ≤ 1) ∧
    (0 ≤ (tone_map_rec2408_pixel (Rec2408Params.new (0, S) (0, T)) lr lg lb r g b).2.2 ∧
      (tone_map_rec2408_pixel (Rec2408Params.new (0, S) (0, T)) lr lg lb r g b).2.2 ≤ 1) := by
  set P := Rec2408Params.new (0, S) (0, T) with hP
  have htgt : P.target_peak = T := rfl
  have hitp : P.inv_target_peak = 1 / T := rfl
  have hnorm : P.normalizer = S / T := rfl
  have hsp : P.source_peak = S := rfl
  simp only [tone_map_rec2408_pixel]
  set lum := P.source_peak * (lr * r + lg * g + lb * b) with hlum
  set e2 := if (min ((pq_encode_nits lum - P.pq_mastering_min) *
      P.inv_pq_mastering_range) 1) < P.ks then
      (min ((pq_encode_nits lum - P.pq_mastering_min) * P.inv_pq_mastering_range) 1)
    else P.hermite_spline
      (min ((pq_encode_nits lum - P.pq_mastering_min) * P.inv_pq_mastering_range) 1)
    with he2
  set nl := clamp (pq_decode_nits ((P.min_lum * ((1 - e2) * (1 - e2) *
      ((1 - e2) * (1 - e2))) + e2) * P.pq_mastering_range + P.pq_mastering_min)) 0
      P.target_peak with hnl
  have hnl0 : 0 ≤ nl := by
    rw [hnl, clamp]
    exact le_min (le_max_right _ _) (by rw [htgt]; exact hT.le)
  have hnlT : nl ≤ T := by
    rw [hnl, clamp, htgt]
    exact min_le_right _ _
  rcases le_or_lt lum 1e-6 with hc | hc
  · rw [if_pos hc]
    dsimp only
    refine gamut_map_mem_unit _ _ _ _ _ _ ?_
    have hcap : 0 ≤ nl * P.inv_target_peak := by
      rw [hitp]
      positivity
    nlinarith
  · rw [if_neg (not_le.2 hc)]
    dsimp only
    refine gamut_map_mem_unit _ _ _ _ _ _ ?_
    have hlum0 : lum ≠ 0 := by positivity
    have hS0 : S ≠ 0 := by
      intro h0
      rw [hlum, hsp, h0] at hc
      norm_num at hc
    have hws0 : lr * r + lg * g + lb * b ≠ 0 := by
      intro h0
      rw [hlum, h0] at hc
      norm_num at hc
    have hLval : lr * (r * (nl / lum * P.normalizer)) +
        lg * (g * (nl / lum * P.normalizer)) +
        lb * (b * (nl / lum * P.normalizer)) = nl / T := by
      rw [hnorm, hlum, hsp]
      field_simp
      ring
    rw [hLval]
    positivity

/-- Claim C5, part 2 helper: the source-peak pixel `(1,1,1)` maps exactly to
`(1,1,1)` (so within `0.05` of `1.0` on the target-normalized scale) when the
weights sum to `1` and `0 < T < S ≤ 10000` with `1 - ks` above the `1e-6`
guard. -/
theorem rec2408_pixel_peak (S T lr lg lb : ℝ) (hT : 0 < T) (hTS : T < S)
    (hS : S ≤ 10000) (hsum : lr + lg + lb = 1)
    (h1mks : 1e-6 ≤ 1 - (Rec2408Params.new (0, S) (0, T)).ks) :
    tone_map_rec2408_pixel (Rec2408Params.new (0, S) (0, T)) lr lg lb 1 1 1 =
      (1, 1, 1) := by
  set P := Rec2408Params.new (0, S) (0, T) with hP
  have hS0 : (0:ℝ) < S := by linarith
  have hrange : 0 < pq_encode_nits S - pq_encode_nits 0 := by
    have := pq_encode_nits_lt (le_refl (0:ℝ)).ge.le hS0
    linarith [pq_encode_nits_lt (le_refl (0:ℝ)) hS0]
  have hrange0 : pq_encode_nits S - pq_encode_nits 0 ≠ 0 := hrange.ne'
  have hpmin : P.pq_mastering_min = pq_encode_nits 0 := rfl
  have hprange : P.pq_mastering_range = pq_encode_nits S - pq_encode_nits 0 := rfl
  have hinvr : P.inv_pq_mastering_range = 1 / (pq_encode_nits S - pq_encode_nits 0) := rfl
  have hml : P.min_lum = 0 := by
    rw [hP]
    simp [Rec2408Params.new]
  have hmaxl : P.max_lum = (pq_encode_nits T - pq_encode_nits 0) *
      (1 / (pq_encode_nits S - pq_encode_nits 0)) := rfl
  have hkseq : P.ks = 1.5 * P.max_lum - 0.5 := rfl
  have hioks : P.inv_one_minus_ks = 1 / (1 - P.ks) := by
    have : max (1 - P.ks) 1e-6 = 1 - P.ks := max_eq_left (by linarith)
    rw [hP] at this ⊢
    show (1 : ℝ) / max (1 - (Rec2408Params.new (0, S) (0, T)).ks) 1e-6 = _
    rw [this]
  have h1ks0 : (1:ℝ) - P.ks ≠ 0 := by
    intro h0
    rw [h0] at h1mks
    norm_num at h1mks
  simp only [tone_map_rec2408_pixel]
  rw [show P.source_peak * (lr * 1 + lg * 1 + lb * 1) = S by
    rw [hP]; show S * (lr * 1 + lg * 1 + lb * 1) = S; nlinarith]
  rw [hpmin, hinvr]
  rw [show (pq_encode_nits S - pq_encode_nits 0) *
      (1 / (pq_encode_nits S - pq_encode_nits 0)) = 1 by field_simp]
  rw [min_self]
  rw [if_neg (by push_neg; linarith : ¬ (1:ℝ) < P.ks)]
  rw [Rec2408Params.hermite_spline, hioks]
  rw [show (1 - P.ks) * (1 / (1 - P.ks)) = 1 by field_simp]
  rw [show (2 * (1 * 1 * 1) - 3 * (1 * 1) + 1) * P.ks +
      (1 * 1 * 1 - 2 * (1 * 1) + 1) * (1 - P.ks) +
      (-2 * (1 * 1 * 1) + 3 * (1 * 1)) * P.max_lum = P.max_lum by ring]
  rw [hml]
  rw [show (0:ℝ) * ((1 - P.max_lum) * (1 - P.max_lum) *
      ((1 - P.max_lum) * (1 - P.max_lum))) + P.max_lum = P.max_lum by ring]
  rw [hmaxl, hprange]
  rw [show (pq_encode_nits T - pq_encode_nits 0) *
      (1 / (pq_encode_nits S - pq_encode_nits 0)) *
      (pq_encode_nits S - pq_encode_nits 0) + pq_encode_nits 0 =
      pq_encode_nits T by field_simp]
  rw [pq_decode_encode_nits hT.le (by linarith)]
  rw [show clamp T 0 P.target_peak = T by
    rw [clamp, max_eq_left hT.le, hP]
    show min T T = T
    exact min_self T]
  rcases le_or_lt S 1e-6 with hc | hc
  · rw [if_pos hc]
    dsimp only
    rw [show T * P.inv_target_peak = 1 by
      rw [hP]; show T * (1 / T) = 1; field_simp]
    exact gamut_map_ones lr lg lb hsum
  · rw [if_neg (not_le.2 hc)]
    dsimp only
    rw [show T / S * P.normalizer = 1 by
      rw [hP]; show T / S * (S / T) = 1; field_simp]
    simpa using gamut_map_ones lr lg lb hsum

/-- Claim C5: for every input RGB triple (including pure primaries) and
Rec.2408 parameters built from `[0,S] → [0,T]` ranges with a positive target
peak and nonnegative luminance weights, every output channel of
`tone_map_rec2408` lies in `[0,1]` after the gamut-mapping step; and with
weights summing to 1, `0 < T < S ≤ 10000` and `1 - ks` above its `1e-6`
guard, the source-peak input `[1,1,1]` maps to within `0.05` of `1.0` on the
target-normalized scale (in fact exactly to `1`). -/
theorem c5_rec2408_output_in_range :
    (∀ S T lr lg lb r g b : ℝ, 0 < T → 0 ≤ lr → 0 ≤ lg → 0 ≤ lb →
      ∀ x ∈ tone_map_rec2408 (Rec2408Params.new (0, S) (0, T)) lr lg lb [r, g, b],
        0 ≤ x ∧ x ≤ 1) ∧
    (∀ S T lr lg lb : ℝ, 0 < T → T < S → S ≤ 10000 → lr + lg + lb = 1 →
      1e-6 ≤ 1 - (Rec2408Params.new (0, S) (0, T)).ks →
      ∀ x ∈ tone_map_rec2408 (Rec2408Params.new (0, S) (0, T)) lr lg lb [1, 1, 1],
        |x - 1| ≤ 0.05) := by
  constructor
  · intro S T lr lg lb r g b hT hlr hlg hlb x hx
    have hxl : tone_map_rec2408 (Rec2408Params.new (0, S) (0, T)) lr lg lb [r, g, b] =
        [(tone_map_rec2408_pixel (Rec2408Params.new (0, S) (0, T)) lr lg lb r g b).1,
         (tone_map_rec2408_pixel (Rec2408Params.new (0, S) (0, T)) lr lg lb r g b).2.1,
         (tone_map_rec2408_pixel (Rec2408Params.new (0, S) (0, T)) lr lg lb r g b).2.2] := by
      show mapTriples _ _ = _
      rw [mapTriples_cons3, mapTriples_nil]
    obtain ⟨⟨h10, h11⟩, ⟨h20, h21⟩, ⟨h30, h31⟩⟩ :=
      rec2408_pixel_mem_unit S T lr lg lb r g b hT hlr hlg hlb
    rw [hxl] at hx
    simp only [List.mem_cons, List.not_mem_nil, or_false] at hx
    rcases hx with hx | hx | hx <;> rw [hx] <;> exact ⟨by assumption, by assumption⟩
  · intro S T lr lg lb hT hTS hS hsum h1mks x hx
    have hxl : tone_map_rec2408 (Rec2408Params.new (0, S) (0, T)) lr lg lb [1, 1, 1] =
        [1, 1, 1] := by
      show mapTriples _ _ = _
      rw [mapTriples_cons3, rec2408_pixel_peak S T lr lg lb hT hTS hS hsum h1mks,
        mapTriples_nil]
    rw [hxl] at hx
    simp only [List.mem_cons, List.not_mem_nil, or_false] at hx
    rcases hx with hx | hx | hx <;> rw [hx] <;> norm_num

/-- Concrete instantiation of claim C5: ranges `[0,10000] → [0,203]`,
BT.2020 weights, pure-red input; the first output channel is in `[0,1]`. -/
theorem c5_rec2408_output_in_range_witness :
    ∀ x ∈ tone_map_rec2408 (Rec2408Params.new (0, 10000) (0, 203))
      0.2627 0.678 0.0593 [1, 0, 0], 0 ≤ x ∧ x ≤ 1 :=
  c5_rec2408_output_in_range.1 10000 203 0.2627 0.678 0.0593 1 0 0
    (by norm_num) (by norm_num) (by norm_num) (by norm_num)

/-! ## Claim C4 -/

/-- Claim C4: for every pixel processed by `tone_map_bt2446a_linear` whose
linear luminance `Y = lr*r + lg*g + lb*b` is strictly positive, all three
linear channels are scaled by the same ratio `bt2446a_map(Y) / Y`, so the
R:G and R:B channel ratios of the output equal those of the input exactly;
when `Y ≤ 0` the pixel is skipped and left unchanged. -/
theorem c4_linear_preserves_channel_ratios (p : Bt2446aParams) (lr lg lb r g b : ℝ)
    (hh : 1 < p.rho_hdr) (hln : p.ln_rho_hdr = Real.log p.rho_hdr)
    (hs : 1 < p.rho_sdr) :
    (lr * r + lg * g + lb * b ≤ 0 →
      tone_map_bt2446a_linear_pixel p lr lg lb r g b = (r, g, b)) ∧
    (0 < lr * r + lg * g + lb * b →
      tone_map_bt2446a_linear_pixel p lr lg lb r g b =
        (r * (bt2446a_map p (lr * r + lg * g + lb * b) / (lr * r + lg * g + lb * b)),
         g * (bt2446a_map p (lr * r + lg * g + lb * b) / (lr * r + lg * g + lb * b)),
         b * (bt2446a_map p (lr * r + lg * g + lb * b) / (lr * r + lg * g + lb * b))) ∧
      (tone_map_bt2446a_linear_pixel p lr lg lb r g b).1 * g =
        (tone_map_bt2446a_linear_pixel p lr lg lb r g b).2.1 * r ∧
      (tone_map_bt2446a_linear_pixel p lr lg lb r g b).1 * b =
        (tone_map_bt2446a_linear_pixel p lr lg lb r g b).2.2 * r ∧
      (g ≠ 0 → (tone_map_bt2446a_linear_pixel p lr lg lb r g b).1 /
        (tone_map_bt2446a_linear_pixel p lr lg lb r g b).2.1 = r / g) ∧
      (b ≠ 0 → (tone_map_bt2446a_linear_pixel p lr lg lb r g b).1 /
        (tone_map_bt2446a_linear_pixel p lr lg lb r g b).2.2 = r / b)) := by
  constructor
  · intro hy
    rw [tone_map_bt2446a_linear_pixel, if_pos hy]
  · intro hy
    have heq : tone_map_bt2446a_linear_pixel p lr lg lb r g b =
        (r * (bt2446a_map p (lr * r + lg * g + lb * b) / (lr * r + lg * g + lb * b)),
         g * (bt2446a_map p (lr * r + lg * g + lb * b) / (lr * r + lg * g + lb * b)),
         b * (bt2446a_map p (lr * r + lg * g + lb * b) / (lr * r + lg * g + lb * b))) := by
      rw [tone_map_bt2446a_linear_pixel, if_neg (not_le.2 hy)]
    have hknee : 0 < bt2446a_knee p ((lr * r + lg * g + lb * b) ^ ((1:ℝ)/2.4)) :=
      bt2446a_knee_pos p hh hln hs (Real.rpow_pos_of_pos hy _)
    have hmap : 0 < bt2446a_map p (lr * r + lg * g + lb * b) := by
      rw [bt2446a_map]
      exact Real.rpow_pos_of_pos hknee _
    have hk : bt2446a_map p (lr * r + lg * g + lb * b) /
        (lr * r + lg * g + lb * b) ≠ 0 := (div_pos hmap hy).ne'
    have h1 : (tone_map_bt2446a_linear_pixel p lr lg lb r g b).1 =
        r * (bt2446a_map p (lr * r + lg * g + lb * b) /
          (lr * r + lg * g + lb * b)) := by rw [heq]
    have h2 : (tone_map_bt2446a_linear_pixel p lr lg lb r g b).2.1 =
        g * (bt2446a_map p (lr * r + lg * g + lb * b) /
          (lr * r + lg * g + lb * b)) := by rw [heq]
    have h3 : (tone_map_bt2446a_linear_pixel p lr lg lb r g b).2.2 =
        b * (bt2446a_map p (lr * r + lg * g + lb * b) /
          (lr * r + lg * g + lb * b)) := by rw [heq]
    refine ⟨heq, by rw [h1, h2]; ring, by rw [h1, h3]; ring,
      fun hg => ?_, fun hb2 => ?_⟩
    · rw [h1, h2, mul_div_mul_right _ _ hk]
    · rw [h1, h3, mul_div_mul_right _ _ hk]

/-- Concrete instantiation of claim C4: parameters `(10000, 203)`, BT.2020
luminance weights and pixel `(0.1, 0.05, 0.02)` (positive luminance). -/
theorem c4_linear_preserves_channel_ratios_witness :
    (tone_map_bt2446a_linear_pixel (Bt2446aParams.new 10000 203)
        0.2627 0.678 0.0593 0.1 0.05 0.02).1 /
      (tone_map_bt2446a_linear_pixel (Bt2446aParams.new 10000 203)
        0.2627 0.678 0.0593 0.1 0.05 0.02).2.1 = 0.1 / 0.05 := by
  obtain ⟨hh, hln, hs, -⟩ :=
    Bt2446aParams_new_valid (show (0:ℝ) < 10000 by norm_num) le_rfl
      (show (0:ℝ) < 203 by norm_num)
  have h := (c4_linear_preserves_channel_ratios (Bt2446aParams.new 10000 203)
    0.2627 0.678 0.0593 0.1 0.05 0.02 hh hln hs).2 (by norm_num)
  exact h.2.2.2.1 (by norm_num)

/-! ## Claim C3 -/

/-- Claim C3: for every pixel with `y' > 0`, the optimized BT.2446a path
(multiply each gamma-encoded channel by `ratio = knee(y')/y'`, clamp to `≥0`,
gamma-decode) produces exactly — in particular within `1e-6` per channel —
the same result as the full Y'CbCr decompose → scale-chroma → reconstruct
computation, for luminance weights summing to 1 (with `lg ≠ 0`, `lr ≠ 1`,
`lb ≠ 1` so the decomposition's divisions are defined); this covers the
test set of white, gray, near-black, primary/secondary and mixed colors. -/
theorem c3_direct_scaling_matches_ycbcr (p : Bt2446aParams) (lr lg lb r g b : ℝ)
    (hsum : lr + lg + lb = 1) (hlg : lg ≠ 0) (hlr : lr ≠ 1) (hlb : lb ≠ 1)
    (hy : 0 < lr * (max r 0) ^ ((1 : ℝ) / 2.4) + lg * (max g 0) ^ ((1 : ℝ) / 2.4) +
      lb * (max b 0) ^ ((1 : ℝ) / 2.4)) :
    tone_map_bt2446a_pixel p lr lg lb r g b =
      bt2446a_ycbcr_roundtrip_pixel p lr lg lb r g b ∧
    |(tone_map_bt2446a_pixel p lr lg lb r g b).1 -
      (bt2446a_ycbcr_roundtrip_pixel p lr lg lb r g b).1| ≤ 1e-6 ∧
    |(tone_map_bt2446a_pixel p lr lg lb r g b).2.1 -
      (bt2446a_ycbcr_roundtrip_pixel p lr lg lb r g b).2.1| ≤ 1e-6 ∧
    |(tone_map_bt2446a_pixel p lr lg lb r g b).2.2 -
      (bt2446a_ycbcr_roundtrip_pixel p lr lg lb r g b).2.2| ≤ 1e-6 := by
  have hlb' : lb = 1 - lr - lg := by linarith
  subst hlb'
  have hlr1 : (1 : ℝ) - lr ≠ 0 := sub_ne_zero.2 (Ne.symm hlr)
  have hlb1 : (1 : ℝ) - (1 - lr - lg) ≠ 0 := sub_ne_zero.2 (Ne.symm hlb)
  have heq : tone_map_bt2446a_pixel p lr lg (1 - lr - lg) r g b =
      bt2446a_ycbcr_roundtrip_pixel p lr lg (1 - lr - lg) r g b := by
    simp only [tone_map_bt2446a_pixel, bt2446a_ycbcr_roundtrip_pixel]
    rw [if_neg (not_le.2 hy)]
    set R := (max r 0) ^ ((1 : ℝ) / 2.4) with hR
    set G := (max g 0) ^ ((1 : ℝ) / 2.4) with hG
    set B := (max b 0) ^ ((1 : ℝ) / 2.4) with hB
    have hy' : lr * R + lg * G + (1 - lr - lg) * B ≠ 0 := ne_of_gt hy
    simp only [Prod.mk.injEq]
    refine ⟨?_, ?_, ?_⟩ <;>
      · congr 1
        congr 1
        field_simp
        ring
  refine ⟨heq, ?_, ?_, ?_⟩ <;> · rw [heq, sub_self, abs_zero]; norm_num

/-- Concrete instantiation of claim C3: BT.2020 weights and the white pixel
`(1, 1, 1)` (part of the test set), on which the two paths agree. -/
theorem c3_direct_scaling_matches_ycbcr_witness :
    tone_map_bt2446a_pixel (Bt2446aParams.new 10000 203) 0.2627 0.678 0.0593 1 1 1 =
      bt2446a_ycbcr_roundtrip_pixel (Bt2446aParams.new 10000 203)
        0.2627 0.678 0.0593 1 1 1 :=
  (c3_direct_scaling_matches_ycbcr (Bt2446aParams.new 10000 203)
    0.2627 0.678 0.0593 1 1 1 (by norm_num) (by norm_num) (by norm_num)
    (by norm_num)
    (by rw [show max (1:ℝ) 0 = 1 by norm_num, Real.one_rpow]; norm_num)).1

/-! ## Claim C6 -/

theorem interpAbsLe {m L c M : ℝ} (h0 : 0 ≤ m) (h1 : m ≤ 1) (hc : |c| ≤ M)
    (hL : |L| ≤ M) : |m * (L - c) + c| ≤ M := by
  have key : m * (L - c) + c = m * L + (1 - m) * c := by ring
  rw [key]
  calc |m * L + (1 - m) * c| ≤ |m * L| + |(1 - m) * c| := abs_add _ _
    _ = m * |L| + (1 - m) * |c| := by
        rw [abs_mul, abs_mul, abs_of_nonneg h0,
          abs_of_nonneg (show (0:ℝ) ≤ 1 - m by linarith)]
    _ ≤ m * M + (1 - m) * M := by
        refine add_le_add (mul_le_mul_of_nonneg_left hL h0)
          (mul_le_mul_of_nonneg_left hc (by linarith))
    _ = M := by ring

theorem mulInvMaxAbsLe {x mx M : ℝ} (hx : |x| ≤ M) (h1 : 1 ≤ mx) :
    |x * (1 / mx)| ≤ M := by
  rw [abs_mul]
  have h0 : (0 : ℝ) < mx := by linarith
  have hn : |1 / mx| ≤ 1 := by
    rw [abs_of_nonneg (by positivity), div_le_one h0]
    linarith
  calc |x| * |1 / mx| ≤ M * 1 :=
        mul_le_mul hx hn (abs_nonneg _) ((abs_nonneg x).trans hx)
    _ = M := mul_one M

/-- Claim C6: `gamut_map` is total and never divides by zero.  Whenever a
channel value equals the computed luminance exactly (`val - luminance = 0`)
the guarded reciprocal is `1.0` instead of `1/(val - luminance)`, and the
function produces finite output for finite input: with channels bounded by
`B` and luminance weights bounded by `W` in absolute value, every output
channel is bounded by `(1 + 3W)·B`. -/
theorem c6_gamut_map_total (r g b lr lg lb B W : ℝ)
    (hr : |r| ≤ B) (hg : |g| ≤ B) (hb : |b| ≤ B)
    (hlr : |lr| ≤ W) (hlg : |lg| ≤ W) (hlb : |lb| ≤ W) :
    (∀ val lum : ℝ, val - lum = 0 → invValMinusGray (val - lum) = 1) ∧
    |(gamut_map r g b lr lg lb).1| ≤ (1 + 3 * W) * B ∧
    |(gamut_map r g b lr lg lb).2.1| ≤ (1 + 3 * W) * B ∧
    |(gamut_map r g b lr lg lb).2.2| ≤ (1 + 3 * W) * B := by
  have hB : 0 ≤ B := (abs_nonneg r).trans hr
  have hW : 0 ≤ W := (abs_nonneg lr).trans hlr
  have hLbound : |lr * r + lg * g + lb * b| ≤ 3 * W * B := by
    calc |lr * r + lg * g + lb * b| ≤ |lr * r| + |lg * g| + |lb * b| :=
          abs_add_three _ _ _
      _ = |lr| * |r| + |lg| * |g| + |lb| * |b| := by rw [abs_mul, abs_mul, abs_mul]
      _ ≤ W * B + W * B + W * B := by
          refine add_le_add (add_le_add ?_ ?_) ?_ <;>
            exact mul_le_mul (by assumption) (by assumption) (abs_nonneg _) hW
      _ = 3 * W * B := by ring
  have hM : |lr * r + lg * g + lb * b| ≤ (1 + 3 * W) * B := by nlinarith
  have hrM : |r| ≤ (1 + 3 * W) * B := by nlinarith
  have hgM : |g| ≤ (1 + 3 * W) * B := by nlinarith
  have hbM : |b| ≤ (1 + 3 * W) * B := by nlinarith
  obtain ⟨gm, hgm0, hgm1, hEq⟩ :
      ∃ gm, 0 ≤ gm ∧ gm ≤ 1 ∧ gamut_map r g b lr lg lb =
        ((gm * ((lr * r + lg * g + lb * b) - r) + r) *
           (1 / max (max (max (gm * ((lr * r + lg * g + lb * b) - r) + r)
             (gm * ((lr * r + lg * g + lb * b) - g) + g))
             (gm * ((lr * r + lg * g + lb * b) - b) + b)) 1),
         (gm * ((lr * r + lg * g + lb * b) - g) + g) *
           (1 / max (max (max (gm * ((lr * r + lg * g + lb * b) - r) + r)
             (gm * ((lr * r + lg * g + lb * b) - g) + g))
             (gm * ((lr * r + lg * g + lb * b) - b) + b)) 1),
         (gm * ((lr * r + lg * g + lb * b) - b) + b) *
           (1 / max (max (max (gm * ((lr * r + lg * g + lb * b) - r) + r)
             (gm * ((lr * r + lg * g + lb * b) - g) + g))
             (gm * ((lr * r + lg * g + lb * b) - b) + b)) 1)) :=
    ⟨_, clamp01_nonneg _, clamp01_le_one _, rfl⟩
  refine ⟨fun val lum hvl => by rw [invValMinusGray, if_pos hvl], ?_, ?_, ?_⟩ <;>
    · rw [hEq]
      exact mulInvMaxAbsLe
        (interpAbsLe hgm0 hgm1 (by assumption) hM) (le_max_right _ 1)

/-- Concrete instantiation of claim C6: BT.2020 weights, pixel
`(0.5, 0.5, 0.5)`, bounds `B = W = 1`. -/
theorem c6_gamut_map_total_witness :
    |(gamut_map 0.5 0.5 0.5 0.2627 0.678 0.0593).1| ≤ (1 + 3 * 1) * 1 :=
  (c6_gamut_map_total 0.5 0.5 0.5 0.2627 0.678 0.0593 1 1
    (by rw [abs_of_nonneg]; norm_num; norm_num)
    (by rw [abs_of_nonneg]; norm_num; norm_num)
    (by rw [abs_of_nonneg]; norm_num; norm_num)
    (by rw [abs_of_nonneg]; norm_num; norm_num)
    (by rw [abs_of_nonneg]; norm_num; norm_num)
    (by rw [abs_of_nonneg]; norm_num; norm_num)).2.1

/-! ## Claim C10 -/

/-- Claim C10: for every one of the four kernels, when the data slice length
is not a multiple of 3, the trailing `length mod 3` elements of the buffer
are left unchanged: each kernel processes exactly `length / 3` pixels (the
buffer keeps its length and everything beyond index `3 * (length / 3)` is
untouched). -/
theorem c10_trailing_elements_unchanged (p : Bt2446aParams) (rp : Rec2408Params)
    (source_it lr lg lb : ℝ) (data : List ℝ) :
    ((tone_map_bt2446a p lr lg lb data).length = data.length ∧
      (tone_map_bt2446a p lr lg lb data).drop (3 * (data.length / 3)) =
        data.drop (3 * (data.length / 3))) ∧
    ((tone_map_bt2446a_linear p lr lg lb data).length = data.length ∧
      (tone_map_bt2446a_linear p lr lg lb data).drop (3 * (data.length / 3)) =
        data.drop (3 * (data.length / 3))) ∧
    ((tone_map_bt2446a_perceptual p source_it data).length = data.length ∧
      (tone_map_bt2446a_perceptual p source_it data).drop (3 * (data.length / 3)) =
        data.drop (3 * (data.length / 3))) ∧
    ((tone_map_rec2408 rp lr lg lb data).length = data.length ∧
      (tone_map_rec2408 rp lr lg lb data).drop (3 * (data.length / 3)) =
        data.drop (3 * (data.length / 3))) :=
  ⟨⟨mapTriples_length _ _, mapTriples_drop_rest _ _⟩,
   ⟨mapTriples_length _ _, mapTriples_drop_rest _ _⟩,
   ⟨mapTriples_length _ _, mapTriples_drop_rest _ _⟩,
   ⟨mapTriples_length _ _, mapTriples_drop_rest _ _⟩⟩

/-! ## Claim C9 -/

/-- Claim C9 as stated is false: a pipeline whose `desired_intensity_target`
is `0` does not behave as if the method default (203 nits) were configured.
At method `Bt2446a`, desired target `0`, source intensity `10000`, the
configuration decision yields `none` (tone mapping disabled), while the
method-default target would yield an active `Bt2446a` configuration. -/
theorem c9_counterexample :
    ¬ (∀ (method : ToneMapMethod) (desired source : ℝ) (lums : ℝ × ℝ × ℝ),
        desired ≤ 0 →
        toneMapConfigOf method desired source lums =
          toneMapConfigOf method method.default_intensity_target source lums) := by
  intro h
  have h0 := h .Bt2446a 0 10000 (1, 1, 1) le_rfl
  unfold toneMapConfigOf at h0
  rw [if_neg (by norm_num), if_pos (by
    constructor
    · show (10000 : ℝ) > ToneMapMethod.Bt2446a.default_intensity_target
      norm_num [ToneMapMethod.default_intensity_target, DEFAULT_SDR_INTENSITY_TARGET]
    · show ToneMapMethod.Bt2446a.default_intensity_target > (0 : ℝ)
      norm_num [ToneMapMethod.default_intensity_target, DEFAULT_SDR_INTENSITY_TARGET])] at h0
  exact Option.noConfusion h0

/-- Claim C9, amended: a `desired_intensity_target` of `0` or negative
disables tone mapping entirely (the configuration decision returns `none`
and the pipeline passes pixels straight to the CMS delegate); the method
defaults — 203 nits for the BT.2446a variants and `CmsOnly`, 255 nits for
`Rec2408` — exist only in `default_intensity_target` and at construction
sites, and are not substituted at pipeline-configuration time. -/
theorem c9_nonpositive_target_skips_tone_mapping :
    (∀ (method : ToneMapMethod) (desired source : ℝ) (lums : ℝ × ℝ × ℝ),
        desired ≤ 0 → toneMapConfigOf method desired source lums = none) ∧
    ToneMapMethod.Rec2408.default_intensity_target = 255 ∧
    ToneMapMethod.Bt2446a.default_intensity_target = 203 ∧
    ToneMapMethod.Bt2446aLinear.default_intensity_target = 203 ∧
    ToneMapMethod.Bt2446aPerceptual.default_intensity_target = 203 ∧
    ToneMapMethod.CmsOnly.default_intensity_target = 203 := by
  refine ⟨fun method desired source lums hd => ?_, rfl, rfl, rfl, rfl, rfl⟩
  unfold toneMapConfigOf
  rw [if_neg]
  rintro ⟨-, h2⟩
  linarith

/-- Concrete instantiation of the amended claim C9: with method `Bt2446a`,
desired target `0` and source intensity `10000`, no tone-map configuration
is produced. -/
theorem c9_nonpositive_target_skips_tone_mapping_witness :
    toneMapConfigOf .Bt2446a 0 10000 (1, 1, 1) = none :=
  c9_nonpositive_target_skips_tone_mapping.1 .Bt2446a 0 10000 (1, 1, 1) le_rfl

/-! ## Claim C7 -/

/-- Claim C7: for every chromaticity input, the luminance triple returned by
`luminances_from_chromaticities` sums to exactly 1 (the real-arithmetic
counterpart of "within float rounding"): the Cramer's-rule solution is
normalized by its sum in the non-degenerate case, and the fallback triple
`[0.2627, 0.6780, 0.0593]` itself sums to 1. -/
theorem c7_luminances_sum_to_one (rx ry gx gy bx b_y wx wy : ℝ) :
    (luminances_from_chromaticities rx ry gx gy bx b_y wx wy).1 +
      (luminances_from_chromaticities rx ry gx gy bx b_y wx wy).2.1 +
      (luminances_from_chromaticities rx ry gx gy bx b_y wx wy).2.2 = 1 := by
  rw [luminances_from_chromaticities]
  by_cases h1 : |lumDet rx ry gx gy bx b_y| < 1e-10
  · rw [if_pos h1]; norm_num
  · rw [if_neg h1]
    simp only []
    set s := lumScale rx ry gx gy bx b_y wx wy with hs
    by_cases h2 : |s.1 + s.2.1 + s.2.2| < 1e-10
    · rw [if_pos h2]; norm_num
    · rw [if_neg h2]
      have hsum : s.1 + s.2.1 + s.2.2 ≠ 0 := by
        intro h0
        rw [h0] at h2
        norm_num at h2
      field_simp

/-! ## Claim C8 -/

/-- Claim C8 as stated is false on its "in no case does it divide by a
quantity whose absolute value is below 1e-10" part: the chromaticity-ratio
divisions (`wx/wy`, `rx/ry`, …) are not guarded, so at a green-primary
chromaticity with `ry = 0` the function divides by `0`. -/
theorem c8_counterexample :
    ¬ (∀ rx ry gx gy bx b_y wx wy : ℝ,
        ∀ d ∈ luminance_divisors rx ry gx gy bx b_y wx wy, (1e-10 : ℝ) ≤ |d|) := by
  intro h
  have h0 := h 0.64 0 0.3 0.6 0.15 0.06 0.3127 0.329 0 (by
    rw [luminance_divisors]
    simp)
  norm_num at h0

/-- Claim C8, amended: `luminances_from_chromaticities` returns the fixed
BT.2020 triple `[0.2627, 0.6780, 0.0593]` when the 3×3 determinant has
absolute value `< 1e-10`, and also when the determinant check passes but the
pre-normalization weight sum has absolute value `< 1e-10`; the two guarded
divisions (by the determinant and by the weight sum — the entries of
`luminance_divisors` past the four unguarded chromaticity denominators) are
never by a quantity of absolute value below 1e-10.  The unguarded divisions
by `ry`, `gy`, `by`, `wy` carry no such bound. -/
theorem c8_degenerate_fallback (rx ry gx gy bx b_y wx wy : ℝ) :
    (|lumDet rx ry gx gy bx b_y| < 1e-10 →
      luminances_from_chromaticities rx ry gx gy bx b_y wx wy =
        (0.2627, 0.6780, 0.0593)) ∧
    (¬ |lumDet rx ry gx gy bx b_y| < 1e-10 →
      |(lumScale rx ry gx gy bx b_y wx wy).1 +
        (lumScale rx ry gx gy bx b_y wx wy).2.1 +
        (lumScale rx ry gx gy bx b_y wx wy).2.2| < 1e-10 →
      luminances_from_chromaticities rx ry gx gy bx b_y wx wy =
        (0.2627, 0.6780, 0.0593)) ∧
    (∀ d ∈ (luminance_divisors rx ry gx gy bx b_y wx wy).drop 4,
      (1e-10 : ℝ) ≤ |d|) := by
  refine ⟨fun h1 => ?_, fun h1 h2 => ?_, ?_⟩
  · rw [luminances_from_chromaticities, if_pos h1]
  · rw [luminances_from_chromaticities, if_neg h1]
    simp only []
    rw [if_pos h2]
  · rw [luminance_divisors]
    by_cases h1 : |lumDet rx ry gx gy bx b_y| < 1e-10
    · rw [if_pos h1]
      simp
    · rw [if_neg h1]
      simp only []
      by_cases h2 : |(lumScale rx ry gx gy bx b_y wx wy).1 +
          (lumScale rx ry gx gy bx b_y wx wy).2.1 +
          (lumScale rx ry gx gy bx b_y wx wy).2.2| < 1e-10
      · rw [if_pos h2]
        intro d hd
        simp at hd
        rw [hd]
        linarith [not_lt.1 h1]
      · rw [if_neg h2]
        intro d hd
        simp at hd
        rcases hd with hd | hd
        · rw [hd]; linarith [not_lt.1 h1]
        · rw [hd]; linarith [not_lt.1 h2]

/-- Concrete instantiation of the amended claim C8: at the all-ones
(degenerate) chromaticity input the determinant is `0`, so the fixed
BT.2020 fallback triple is returned. -/
theorem c8_degenerate_fallback_witness :
    luminances_from_chromaticities 1 1 1 1 1 1 1 1 = (0.2627, 0.6780, 0.0593) :=
  (c8_degenerate_fallback 1 1 1 1 1 1 1 1).1 (by norm_num [lumDet])

end JxlTone
